import Mathlib

/-!
Shallow embedding of the extraction engine of
src/youngbench/dataset/utils/extraction.py (functions extract_network,
extract_networks, extract_from_fp, extract_from_gp), together with the
surrounding data model.

Python dictionaries are modelled as insertion-ordered association lists
(dinsert replaces the value of an existing key in place, keeping its
position, exactly like a Python dict assignment).  Python list indexing,
including negative indices and the IndexError on out-of-range access, is
modelled by pyGet.  The networkx DiGraph is modelled by a node list plus
an edge association list keyed by the (source, target) pair; add_edge on
an existing pair overwrites the edge data, as in networkx.

The modules youngbench.dataset.modules.{network,model,node} and
youngbench.constants are imported by extraction.py but are not part of
the given sources; the Network and Node record shapes, the Network
identifier and the ONNXOperatorDomain table are therefore modelled from
the specification (sections 3 and 6), see the doc comments below.
-/

namespace YB

/-- Insertion-ordered dictionary update, matching Python `d[k] = v`:
an existing key keeps its position and gets the new value, a new key is
appended at the end. -/
def dinsert {α β : Type} [DecidableEq α] (k : α) (v : β) : List (α × β) → List (α × β)
  | [] => [(k, v)]
  | (k0, v0) :: rest => if k0 = k then (k, v) :: rest else (k0, v0) :: dinsert k v rest

/-- Dictionary lookup, matching Python `d.get(k)`. -/
def dlookup {α β : Type} [DecidableEq α] (k : α) : List (α × β) → Option β
  | [] => none
  | (k0, v0) :: rest => if k0 = k then some v0 else dlookup k rest

/-- Dictionary membership, matching Python `k in d`. -/
def dmem {α β : Type} [DecidableEq α] (k : α) (d : List (α × β)) : Bool :=
  (dlookup k d).isSome

/-- Python list indexing: a negative index counts from the end once, and
an index out of range yields none (IndexError). -/
def pyGet {α : Type} (xs : List α) (i : Int) : Option α :=
  if i < 0 then
    let j : Int := i + xs.length
    if j < 0 then none else xs.get? j.toNat
  else xs.get? i.toNat

/-- ONNX attribute kinds relevant to extraction.py: GRAPH, GRAPHS and
everything else (scalar, tensor, list values, handled uniformly by
MessageToDict). -/
inductive AttrKind : Type where
  | graph : AttrKind
  | graphs : AttrKind
  | other : AttrKind
deriving DecidableEq, Repr

/-- One named slot of an operator schema, with its arity marker
(option == Variadic in onnx.defs). -/
structure FormalParameter where
  name : String
  variadic : Bool
deriving DecidableEq, Repr

/-- Operator schema as returned by onnx.defs.get_schema: ordered input
slots and ordered output slots. -/
structure OperatorSchema where
  inputs : List FormalParameter
  outputs : List FormalParameter
deriving DecidableEq, Repr

/-- Initializer descriptor built at extraction.py lines 183-188: note
that the source stores the literal list value for the dims field. -/
structure PmInfo where
  dims : List String
  dataType : String
deriving DecidableEq, Repr

/-- Materialized attribute value: a plain converted payload
(MessageToDict), a list of sub-Network identifiers for graph-valued
attributes, or the single function reference dict(function=identifier). -/
inductive AttrValue : Type where
  | raw : String → AttrValue
  | ids : List String → AttrValue
  | fnRef : String → AttrValue
deriving DecidableEq, Repr

/-- Modelled from the spec: the Node record of
youngbench.dataset.modules.node (not in the given sources), as described
in section 3 of the specification: operator identity, materialized
attributes, parameters, operands and results maps. -/
structure NNode where
  operator_type : String
  operator_domain : String
  attributes : List (String × AttrValue)
  parameters : List (String × PmInfo)
  operands : List (String × String)
  results : List (String × String)
deriving DecidableEq, Repr

/-- Edge payload stored by the two add_edge calls of extraction.py:
producer slot name and index, consumer slot name and index. -/
structure EdgeData where
  u_opn : String
  v_opn : String
  u_opi : Int
  v_opi : Int
deriving DecidableEq, Repr

/-- The part of a networkx DiGraph used by extraction.py: insertion
ordered node list and an edge map keyed by the (source, target) pair. -/
structure DiGraph where
  nodes : List Nat
  edges : List ((Nat × Nat) × EdgeData)
deriving DecidableEq, Repr

def DiGraph.empty : DiGraph := ⟨[], []⟩

/-- networkx add_node: a node already present is kept (its position is
unchanged), otherwise it is appended. -/
def DiGraph.addNode (g : DiGraph) (n : Nat) : DiGraph :=
  if n ∈ g.nodes then g else { g with nodes := g.nodes ++ [n] }

/-- networkx add_edge: both endpoints are added as nodes when missing,
and the edge data for the (u, v) pair is set, overwriting an existing
edge between the same pair. -/
def DiGraph.addEdge (g : DiGraph) (u v : Nat) (d : EdgeData) : DiGraph :=
  let g1 := (g.addNode u).addNode v
  { g1 with edges := dinsert (u, v) d g1.edges }

/-- Kahn elimination: repeatedly pick the first remaining node without an
incoming edge from a remaining node; returns the elimination order when
all nodes can be eliminated, none when a cycle blocks elimination. -/
def kahn : Nat → List Nat → List ((Nat × Nat) × EdgeData) → Option (List Nat)
  | 0, remaining, _ => if remaining.isEmpty then some [] else none
  | fuel + 1, remaining, edges =>
    match remaining with
    | [] => some []
    | _ :: _ =>
      match remaining.find? (fun n => edges.all (fun e => !(decide (e.1.2 = n) && decide (e.1.1 ∈ remaining)))) with
      | none => none
      | some n => (kahn fuel (remaining.erase n) edges).map (fun ord => n :: ord)

/-- Topological sort of a DiGraph by Kahn elimination. -/
def DiGraph.topoSort (g : DiGraph) : Option (List Nat) :=
  kahn g.nodes.length g.nodes g.edges

/-- networkx is_directed_acyclic_graph, as used by the two assert
statements of extraction.py: the graph is acyclic exactly when Kahn
elimination consumes every node. -/
def DiGraph.isDag (g : DiGraph) : Bool :=
  g.topoSort.isSome

/-- Modelled from the spec: the Network record of
youngbench.dataset.modules.network (not in the given sources), as
described in section 3 of the specification: the DAG, the node records
keyed by their stable per-level id, the size counter, and the
is_subgraph / is_function_body provenance booleans (constructor keywords
is_sub and is_fnc at extraction.py lines 169 and 317). -/
structure Network where
  graph : DiGraph
  nnNodes : List (Nat × NNode)
  nnSize : Nat
  isSub : Bool
  isFnc : Bool
deriving DecidableEq, Repr

mutual

/-- onnx.GraphProto: nodes, initializers, inputs, intermediate value
annotations and outputs.  Value type payloads (MessageToDict of a
TypeProto) are modelled as opaque strings. -/
inductive GraphProto : Type where
  | mk : List NodeProto → List (String × String) → List (String × String) →
      List (String × String) → List (String × String) → GraphProto

/-- onnx.NodeProto: operator type, domain, input value names, output
value names, attributes. -/
inductive NodeProto : Type where
  | mk : String → String → List String → List String → List AttributeProto → NodeProto

/-- onnx.AttributeProto: name, kind, the single sub graph (field g, with
the protobuf default of an empty graph when unset), the sub graph list
(field graphs), and the opaque MessageToDict payload used for every
non-graph kind. -/
inductive AttributeProto : Type where
  | mk : String → AttrKind → GraphProto → List GraphProto → String → AttributeProto

end

def GraphProto.node : GraphProto → List NodeProto
  | .mk n _ _ _ _ => n

/-- Initializers, as (name, dataType) pairs. -/
def GraphProto.initializer : GraphProto → List (String × String)
  | .mk _ i _ _ _ => i

def GraphProto.input : GraphProto → List (String × String)
  | .mk _ _ i _ _ => i

def GraphProto.value_info : GraphProto → List (String × String)
  | .mk _ _ _ v _ => v

def GraphProto.output : GraphProto → List (String × String)
  | .mk _ _ _ _ o => o

def NodeProto.op_type : NodeProto → String
  | .mk t _ _ _ _ => t

def NodeProto.domain : NodeProto → String
  | .mk _ d _ _ _ => d

def NodeProto.input : NodeProto → List String
  | .mk _ _ i _ _ => i

def NodeProto.output : NodeProto → List String
  | .mk _ _ _ o _ => o

def NodeProto.attribute : NodeProto → List AttributeProto
  | .mk _ _ _ _ a => a

def AttributeProto.name : AttributeProto → String
  | .mk n _ _ _ _ => n

def AttributeProto.kind : AttributeProto → AttrKind
  | .mk _ k _ _ _ => k

def AttributeProto.g : AttributeProto → GraphProto
  | .mk _ _ g _ _ => g

def AttributeProto.graphs : AttributeProto → List GraphProto
  | .mk _ _ _ gs _ => gs

def AttributeProto.payload : AttributeProto → String
  | .mk _ _ _ _ p => p

/-- onnx.FunctionProto: name, domain and body nodes. -/
structure FunctionProto where
  name : String
  domain : String
  node : List NodeProto

/-- A shape-inferred onnx.ModelProto: the main graph and the function
definitions. -/
structure ModelProto where
  graph : GraphProto
  functions : List FunctionProto

/-- A function registry entry: either the still unresolved
onnx.FunctionProto or the already extracted Network, matching the two
isinstance branches of extraction.py. -/
inductive RegEntry : Type where
  | fn : FunctionProto → RegEntry
  | net : Network → RegEntry

/-- The fp_networks registry: (function name, function domain) to entry. -/
abbrev Registry := List ((String × String) × RegEntry)

/-- Modelled from the spec: the externally loaded operator-set tables of
section 6 of the specification: the supported built-in operator domains
(ONNXOperatorDomain of youngbench.constants, not in the given sources)
and the schema lookup onnx.defs.get_schema, which fails (none, the
UnknownOperator error) for an unsupported (type, domain) pair. -/
structure Ctx where
  operatorDomains : List String
  getSchema : String → String → Option OperatorSchema

/-- Failure modes of the embedded engine.  cyclicGraph models the two
DAG assert statements, nameError models the undefined name at
extraction.py line 123, indexError models Python IndexError on schema
slot lists, keyError a missing registry key, unknownOperator a failing
get_schema, assertionError the isinstance assert at line 272, and
fuelOut exhaustion of the recursion fuel. -/
inductive ExtractError : Type where
  | cyclicGraph : ExtractError
  | nameError : ExtractError
  | indexError : ExtractError
  | keyError : ExtractError
  | unknownOperator : ExtractError
  | assertionError : ExtractError
  | fuelOut : ExtractError
deriving DecidableEq, Repr

def encodeList {α : Type} (f : α → String) (xs : List α) : String :=
  "[" ++ String.intercalate "," (xs.map f) ++ "]"

def encodeAttrValue : AttrValue → String
  | .raw s => "r:" ++ s
  | .ids l => "i:" ++ encodeList id l
  | .fnRef s => "f:" ++ s

def encodePmInfo (p : PmInfo) : String :=
  encodeList id p.dims ++ ";" ++ p.dataType

def encodeNNode (n : NNode) : String :=
  n.operator_type ++ "/" ++ n.operator_domain ++ "/" ++
    encodeList (fun kv => kv.1 ++ "=" ++ encodeAttrValue kv.2) n.attributes ++ "/" ++
    encodeList (fun kv => kv.1 ++ "=" ++ encodePmInfo kv.2) n.parameters ++ "/" ++
    encodeList (fun kv => kv.1 ++ "=" ++ kv.2) n.operands ++ "/" ++
    encodeList (fun kv => kv.1 ++ "=" ++ kv.2) n.results

def encodeEdge (e : (Nat × Nat) × EdgeData) : String :=
  toString e.1.1 ++ ">" ++ toString e.1.2 ++ ":" ++
    e.2.u_opn ++ "," ++ e.2.v_opn ++ "," ++ toString e.2.u_opi ++ "," ++ toString e.2.v_opi

/-- Modelled from the spec: the Network identifier of
youngbench.dataset.modules.network (not in the given sources); section 3
of the specification describes it as a content-derived identifier stable
for the lifetime of one extraction call, modelled here as a canonical
textual rendering of the Network content. -/
def Network.identifier (n : Network) : String :=
  "network:" ++ encodeList toString n.graph.nodes ++ "|" ++
    encodeList encodeEdge n.graph.edges ++ "|" ++
    encodeList (fun kv => toString kv.1 ++ "=" ++ encodeNNode kv.2) n.nnNodes ++ "|" ++
    toString n.nnSize ++ "|" ++ toString n.isSub ++ "|" ++ toString n.isFnc

/-- The variadic-arity adjustment shared by the slot loops of
extraction.py (lines 92-94, 101-103, 229-231, 240-242, 252-254):
when the positional index has reached the end of the declared slots and
the final slot is variadic, the index is pulled back to the final slot
and the variadic counter is incremented.  Evaluating the final slot on
an empty slot list is a Python IndexError. -/
def variadicAdjust (slots : List FormalParameter) (idx : Int) (vi : Nat) :
    Except ExtractError (Int × Nat) :=
  if (slots.length : Int) ≤ idx then
    match pyGet slots (-1) with
    | none => .error .indexError
    | some last =>
      if last.variadic then .ok ((slots.length : Int) - 1, vi + 1)
      else .ok (idx, vi)
  else .ok (idx, vi)

/-- The numeric suffix for repeated variadic slots: empty for a zero
counter, otherwise an underscore and the counter. -/
def viSuffix (vi : Nat) : String :=
  if vi ≠ 0 then "_" ++ toString vi else ""

/-- Reads the slot at a (possibly negative) position and appends the
variadic suffix; a position outside the slot list is a Python
IndexError. -/
def slotName (slots : List FormalParameter) (idx : Int) (vi : Nat) :
    Except ExtractError String :=
  match pyGet slots idx with
  | none => .error .indexError
  | some p => .ok (p.name ++ viSuffix vi)

/-- The parameters loop of extract_from_gp (lines 225-233): inputs bound
to an initializer are resolved against the schema input slots (with the
variadic adjustment but without the clamp of the operands loop) and
recorded in the parameters map. -/
def gpParamsLoop (slots : List FormalParameter) (pm : List (String × PmInfo)) :
    List String → Nat → Nat → List (String × PmInfo) →
    Except ExtractError (List (String × PmInfo))
  | [], _, _, acc => .ok acc
  | inp :: rest, idx, vi, acc =>
    match dlookup inp pm with
    | none => gpParamsLoop slots pm rest (idx + 1) vi acc
    | some info =>
      match variadicAdjust slots (idx : Int) vi with
      | .error e => .error e
      | .ok (idx2, vi2) =>
        match slotName slots idx2 vi2 with
        | .error e => .error e
        | .ok pname => gpParamsLoop slots pm rest (idx + 1) vi2 (dinsert pname info acc)

/-- The operands loop (lines 235-245) and results loop (lines 247-257)
of extract_from_gp: the positional index is first clamped with min to
the final slot position, then an input carrying a visible type
annotation is resolved and recorded both in the i2x (or o2x) index and
in the operands (or results) map.  The clamp makes the variadic branch
of variadicAdjust unreachable here. -/
def gpSlotLoop (slots : List FormalParameter) (io : List (String × String)) (nid : Nat) :
    List String → Nat → Nat → List (String × (Nat × String × Int)) →
    List (String × String) →
    Except ExtractError (List (String × (Nat × String × Int)) × List (String × String))
  | [], _, _, x2, smap => .ok (x2, smap)
  | inp :: rest, idx, vi, x2, smap =>
    let cidx : Int := min (idx : Int) ((slots.length : Int) - 1)
    match dlookup inp io with
    | none => gpSlotLoop slots io nid rest (idx + 1) vi x2 smap
    | some desc =>
      match variadicAdjust slots cidx vi with
      | .error e => .error e
      | .ok (idx2, vi2) =>
        match slotName slots idx2 vi2 with
        | .error e => .error e
        | .ok sname =>
            gpSlotLoop slots io nid rest (idx + 1) vi2
              (dinsert inp (nid, sname, idx2) x2) (dinsert sname desc smap)

/-- The input loop (lines 89-97) and output loop (lines 99-106) of
extract_from_fp: every positional value is resolved against the schema
slots with the variadic adjustment (no clamp, no filtering), recorded in
the i2x (or o2x) index and in the operands (or results) map with the raw
value name as map value.  The variadic counter is threaded through and
returned, because the source shares one variadic_index variable between
the input and the output loop of a function body node. -/
def fpSlotLoop (slots : List FormalParameter) (nid : Nat) :
    List String → Nat → Nat → List (String × (Nat × String × Int)) →
    List (String × String) →
    Except ExtractError (Nat × List (String × (Nat × String × Int)) × List (String × String))
  | [], _, vi, x2, smap => .ok (vi, x2, smap)
  | inp :: rest, idx, vi, x2, smap =>
    match variadicAdjust slots (idx : Int) vi with
    | .error e => .error e
    | .ok (idx2, vi2) =>
      match slotName slots idx2 vi2 with
      | .error e => .error e
      | .ok sname =>
          fpSlotLoop slots nid rest (idx + 1) vi2
            (dinsert inp (nid, sname, idx2) x2) (dinsert sname inp smap)

/-- The operand and result loops of the non-built-in branches
(extract_from_gp lines 275-285, extract_from_fp lines 129-137): names
are kept raw; valueOf returns the stored map value (the io_info entry at
graph level, the raw name itself at function level) or none when the
name is filtered out. -/
def customLoop (nid : Nat) (valueOf : String → Option String) :
    List String → Nat → List (String × (Nat × String × Int)) →
    List (String × String) →
    List (String × (Nat × String × Int)) × List (String × String)
  | [], _, x2, smap => (x2, smap)
  | inp :: rest, idx, x2, smap =>
    match valueOf inp with
    | none => customLoop nid valueOf rest (idx + 1) x2 smap
    | some v =>
        customLoop nid valueOf rest (idx + 1)
          (dinsert inp (nid, inp, (idx : Int)) x2) (dinsert inp v smap)

/-- One value-name check of the edge loops (lines 155-165, 303-313): a
name that is both produced (o2x) and consumed (i2x) induces one edge
from the producer to the recorded consumer, labeled with both slot names
and indices. -/
def edgeStep (i2x o2x : List (String × (Nat × String × Int)))
    (g : DiGraph) (name : String) : DiGraph :=
  match dlookup name o2x, dlookup name i2x with
  | some (u, uon, uoi), some (v, von, voi) => g.addEdge u v ⟨uon, von, uoi, voi⟩
  | _, _ => g

/-- The second node loop of extract_from_gp (lines 300-313) and
extract_from_fp (lines 152-165): for every node, every input and then
every output value name is checked against the producer and consumer
indexes. -/
def edgesLoop (i2x o2x : List (String × (Nat × String × Int))) :
    List NodeProto → DiGraph → DiGraph
  | [], g => g
  | node :: rest, g =>
    let g1 := node.input.foldl (edgeStep i2x o2x) g
    let g2 := node.output.foldl (edgeStep i2x o2x) g1
    edgesLoop i2x o2x rest g2

/-- The mutable state of the first node loop of extract_from_gp and
extract_from_fp: the i2x and o2x indexes, the partially built graph, the
node records, the size counter and the accumulated deep networks. -/
structure LoopState where
  i2x : List (String × (Nat × String × Int))
  o2x : List (String × (Nat × String × Int))
  g : DiGraph
  nnNodes : List (Nat × NNode)
  nnSize : Nat
  deeps : List Network

/-- The initializer table pm_info of extract_from_gp (lines 182-188);
the dims field is the literal list of the source. -/
def pmInfoOf (gp : GraphProto) : List (String × PmInfo) :=
  gp.initializer.foldl (fun m t => dinsert t.1 ⟨["dims"], t.2⟩ m) []

/-- The io_info table of extract_from_gp (lines 191-197): graph inputs,
then intermediate value annotations, then graph outputs. -/
def ioInfoOf (gp : GraphProto) : List (String × String) :=
  let m1 := gp.input.foldl (fun m v => dinsert v.1 v.2 m) []
  let m2 := gp.value_info.foldl (fun m v => dinsert v.1 v.2 m) m1
  gp.output.foldl (fun m v => dinsert v.1 v.2 m) m2

mutual

/-- extract_from_gp (extraction.py lines 174-319): build the lookup
tables, run the node loop, add the producer-consumer edges, check
acyclicity and return the Network (is_fnc false) with the accumulated
deep networks.  The fuel argument only bounds recursion depth; it
strictly decreases on every call and exhaustion is an error. -/
def extract_from_gp (ctx : Ctx) (fuel : Nat) (gp : GraphProto) (reg : Registry)
    (deepExtract isSub : Bool) : Except ExtractError (Network × List Network) :=
  match fuel with
  | 0 => .error .fuelOut
  | fuel + 1 =>
    let pm := pmInfoOf gp
    let io := ioInfoOf gp
    match processGpNodes ctx fuel pm io reg deepExtract 0 gp.node ⟨[], [], DiGraph.empty, [], 0, []⟩ with
    | .error e => .error e
    | .ok st =>
      let g := edgesLoop st.i2x st.o2x gp.node st.g
      if g.isDag then .ok (⟨g, st.nnNodes, st.nnSize, isSub, false⟩, st.deeps)
      else .error .cyclicGraph

/-- The first node loop of extract_from_gp (lines 201-298), one node at
a time with its stringified position as id. -/
def processGpNodes (ctx : Ctx) (fuel : Nat) (pm : List (String × PmInfo))
    (io : List (String × String)) (reg : Registry) (deepExtract : Bool)
    (nid : Nat) (nodes : List NodeProto) (st : LoopState) :
    Except ExtractError LoopState :=
  match fuel with
  | 0 => .error .fuelOut
  | fuel + 1 =>
    match nodes with
    | [] => .ok st
    | node :: rest =>
      match processGpNode ctx fuel pm io reg deepExtract nid node st with
      | .error e => .error e
      | .ok st1 => processGpNodes ctx fuel pm io reg deepExtract (nid + 1) rest st1

/-- One iteration of the first node loop of extract_from_gp: the
built-in branch (lines 203-266) resolves the schema, materializes the
attributes and runs the parameters, operands and results loops; the
non-built-in branch (lines 267-294) consults the registry (an
unresolved FunctionProto fails the isinstance assert at line 272) and
keeps raw names. -/
def processGpNode (ctx : Ctx) (fuel : Nat) (pm : List (String × PmInfo))
    (io : List (String × String)) (reg : Registry) (deepExtract : Bool)
    (nid : Nat) (node : NodeProto) (st : LoopState) :
    Except ExtractError LoopState :=
  match fuel with
  | 0 => .error .fuelOut
  | fuel + 1 =>
    if node.domain ∈ ctx.operatorDomains then
      match ctx.getSchema node.op_type node.domain with
      | none => .error .unknownOperator
      | some op =>
        match attrsLoop ctx fuel reg deepExtract node.attribute [] st.deeps with
        | .error e => .error e
        | .ok (attrs, deeps1) =>
          match gpParamsLoop op.inputs pm node.input 0 0 [] with
          | .error e => .error e
          | .ok params =>
            match gpSlotLoop op.inputs io nid node.input 0 0 st.i2x [] with
            | .error e => .error e
            | .ok (i2x1, operands) =>
              match gpSlotLoop op.outputs io nid node.output 0 0 st.o2x [] with
              | .error e => .error e
              | .ok (o2x1, results) =>
                .ok ⟨i2x1, o2x1, st.g.addNode nid,
                     dinsert nid ⟨node.op_type, node.domain, attrs, params, operands, results⟩ st.nnNodes,
                     st.nnSize + 1, deeps1⟩
    else
      match dlookup (node.op_type, node.domain) reg with
      | some (RegEntry.fn _) => .error .assertionError
      | entry =>
        let attrs : List (String × AttrValue) :=
          match entry with
          | some (RegEntry.net n) => [("function", AttrValue.fnRef n.identifier)]
          | _ => []
        let io1 := customLoop nid (fun inp => dlookup inp io) node.input 0 st.i2x []
        let io2 := customLoop nid (fun inp => dlookup inp io) node.output 0 st.o2x []
        .ok ⟨io1.1, io2.1, st.g.addNode nid,
             dinsert nid ⟨node.op_type, node.domain, attrs, [], io1.2, io2.2⟩ st.nnNodes,
             st.nnSize + 1, st.deeps⟩

/-- The attribute loop shared verbatim by both extractors (lines 70-87
and 206-223): graph-valued attributes are recursively extracted in deep
mode (empty lists in shallow mode) and their identifiers recorded;
every other attribute is stored as its converted payload. -/
def attrsLoop (ctx : Ctx) (fuel : Nat) (reg : Registry) (deepExtract : Bool)
    (attrs : List AttributeProto) (amap : List (String × AttrValue))
    (deeps : List Network) :
    Except ExtractError (List (String × AttrValue) × List Network) :=
  match fuel with
  | 0 => .error .fuelOut
  | fuel + 1 =>
    match attrs with
    | [] => .ok (amap, deeps)
    | a :: rest =>
      if a.kind = AttrKind.graph ∨ a.kind = AttrKind.graphs then
        match (if deepExtract = true ∧ a.kind = AttrKind.graph then
                 match extract_from_gp ctx fuel a.g reg deepExtract true with
                 | .error e => .error e
                 | .ok (n, ds) => .ok ([n], ds)
               else .ok ([], []) :
               Except ExtractError (List Network × List Network)) with
        | .error e => .error e
        | .ok (allE1, allD1) =>
          match (if deepExtract = true ∧ a.kind = AttrKind.graphs then
                   graphsLoop ctx fuel reg deepExtract a.graphs [] []
                 else .ok ([], []) :
                 Except ExtractError (List Network × List Network)) with
          | .error e => .error e
          | .ok (allE2, allD2) =>
            let allE := allE1 ++ allE2
            let allD := allD1 ++ allD2
            attrsLoop ctx fuel reg deepExtract rest
              (dinsert a.name (AttrValue.ids (allE.map Network.identifier)) amap)
              (deeps ++ allE ++ allD)
      else
        attrsLoop ctx fuel reg deepExtract rest
          (dinsert a.name (AttrValue.raw a.payload) amap) deeps

/-- The inner loop over attribute.graphs for a GRAPHS attribute in deep
mode (lines 80-83 and 216-219). -/
def graphsLoop (ctx : Ctx) (fuel : Nat) (reg : Registry) (deepExtract : Bool)
    (gs : List GraphProto) (accE accD : List Network) :
    Except ExtractError (List Network × List Network) :=
  match fuel with
  | 0 => .error .fuelOut
  | fuel + 1 =>
    match gs with
    | [] => .ok (accE, accD)
    | g :: rest =>
      match extract_from_gp ctx fuel g reg deepExtract true with
      | .error e => .error e
      | .ok (n, ds) => graphsLoop ctx fuel reg deepExtract rest (accE ++ [n]) (accD ++ ds)

/-- extract_from_fp (extraction.py lines 57-171): like extract_from_gp
but without the initializer and annotation tables, with the shared
variadic counter between the input and output loops, with the
recursive resolution branch for a registered FunctionProto (whose
registry store at line 123 evaluates an undefined name and therefore
raises a NameError after the recursive extraction returns), and
returning a Network with is_fnc true. -/
def extract_from_fp (ctx : Ctx) (fuel : Nat) (fp : FunctionProto) (reg : Registry)
    (deepExtract isSub : Bool) : Except ExtractError (Network × List Network) :=
  match fuel with
  | 0 => .error .fuelOut
  | fuel + 1 =>
    match processFpNodes ctx fuel reg deepExtract 0 fp.node ⟨[], [], DiGraph.empty, [], 0, []⟩ with
    | .error e => .error e
    | .ok st =>
      let g := edgesLoop st.i2x st.o2x fp.node st.g
      if g.isDag then .ok (⟨g, st.nnNodes, st.nnSize, isSub, true⟩, st.deeps)
      else .error .cyclicGraph

/-- The first node loop of extract_from_fp (lines 65-150). -/
def processFpNodes (ctx : Ctx) (fuel : Nat) (reg : Registry) (deepExtract : Bool)
    (nid : Nat) (nodes : List NodeProto) (st : LoopState) :
    Except ExtractError LoopState :=
  match fuel with
  | 0 => .error .fuelOut
  | fuel + 1 =>
    match nodes with
    | [] => .ok st
    | node :: rest =>
      match processFpNode ctx fuel reg deepExtract nid node st with
      | .error e => .error e
      | .ok st1 => processFpNodes ctx fuel reg deepExtract (nid + 1) rest st1

/-- One iteration of the first node loop of extract_from_fp: the
built-in branch (lines 67-115) with the shared variadic counter, and the
non-built-in branch (lines 116-146) in which a still unresolved
FunctionProto is recursively extracted and the following registry store
fails on an undefined name (line 123). -/
def processFpNode (ctx : Ctx) (fuel : Nat) (reg : Registry) (deepExtract : Bool)
    (nid : Nat) (node : NodeProto) (st : LoopState) :
    Except ExtractError LoopState :=
  match fuel with
  | 0 => .error .fuelOut
  | fuel + 1 =>
    if node.domain ∈ ctx.operatorDomains then
      match ctx.getSchema node.op_type node.domain with
      | none => .error .unknownOperator
      | some op =>
        match attrsLoop ctx fuel reg deepExtract node.attribute [] st.deeps with
        | .error e => .error e
        | .ok (attrs, deeps1) =>
          match fpSlotLoop op.inputs nid node.input 0 0 st.i2x [] with
          | .error e => .error e
          | .ok (vi1, i2x1, operands) =>
            match fpSlotLoop op.outputs nid node.output 0 vi1 st.o2x [] with
            | .error e => .error e
            | .ok (_, o2x1, results) =>
              .ok ⟨i2x1, o2x1, st.g.addNode nid,
                   dinsert nid ⟨node.op_type, node.domain, attrs, [], operands, results⟩ st.nnNodes,
                   st.nnSize + 1, deeps1⟩
    else
      match dlookup (node.op_type, node.domain) reg with
      | some (RegEntry.fn f) =>
        match extract_from_fp ctx fuel f reg deepExtract true with
        | .error e => .error e
        | .ok _ => .error .nameError
      | entry =>
        let attrs : List (String × AttrValue) :=
          match entry with
          | some (RegEntry.net n) => [("function", AttrValue.fnRef n.identifier)]
          | _ => []
        let io1 := customLoop nid (fun inp => some inp) node.input 0 st.i2x []
        let io2 := customLoop nid (fun inp => some inp) node.output 0 st.o2x []
        .ok ⟨io1.1, io2.1, st.g.addNode nid,
             dinsert nid ⟨node.op_type, node.domain, attrs, [], io1.2, io2.2⟩ st.nnNodes,
             st.nnSize + 1, st.deeps⟩

end

/-- Registry seeding (extract_networks lines 36-38): every function
definition is stored unresolved under its (name, domain) key. -/
def seedRegistry (fns : List FunctionProto) : Registry :=
  fns.foldl (fun r f => dinsert (f.name, f.domain) (RegEntry.fn f) r) []

/-- The eager function resolution loop of extract_networks (lines
40-49): each function is looked up (the seeded registry makes a missing
key impossible, modelled as a KeyError), a still unresolved entry is
extracted from the loop function itself with is_sub true and the result
is stored and appended together with its deep networks, and an already
resolved entry is appended again.  On failure the registry at the moment
of failure is returned with the error. -/
def processFunctions (ctx : Ctx) (fuel : Nat) (deepExtract : Bool) :
    List FunctionProto → Registry → List Network →
    Except (ExtractError × Registry) (Registry × List Network)
  | [], reg, acc => .ok (reg, acc)
  | fn :: rest, reg, acc =>
    match dlookup (fn.name, fn.domain) reg with
    | none => .error (.keyError, reg)
    | some (RegEntry.fn _) =>
      match extract_from_fp ctx fuel fn reg deepExtract true with
      | .error e => .error (e, reg)
      | .ok (net, ds) =>
          processFunctions ctx fuel deepExtract rest
            (dinsert (fn.name, fn.domain) (RegEntry.net net) reg) (acc ++ net :: ds)
    | some (RegEntry.net net) => processFunctions ctx fuel deepExtract rest reg (acc ++ [net])

/-- extract_network (extraction.py lines 26-29): extract the main graph
with an empty registry, shallow mode and is_sub false, returning only
the Network.  Shape inference is the external preprocessing step and is
not modelled. -/
def extract_network (ctx : Ctx) (fuel : Nat) (model : ModelProto) :
    Except ExtractError Network :=
  match extract_from_gp ctx fuel model.graph [] false false with
  | .error e => .error e
  | .ok (net, _) => .ok net

/-- extract_networks (extraction.py lines 32-54): seed the registry,
eagerly resolve every function in declaration order, then extract the
main graph with the populated registry and append its deep networks.
Errors carry the registry at the moment of failure. -/
def extract_networks (ctx : Ctx) (fuel : Nat) (model : ModelProto)
    (deepExtract : Bool) :
    Except (ExtractError × Registry) (Network × List Network) :=
  let reg0 := seedRegistry model.functions
  match processFunctions ctx fuel deepExtract model.functions reg0 [] with
  | .error e => .error e
  | .ok (reg, deeps) =>
    match extract_from_gp ctx fuel model.graph reg deepExtract false with
    | .error e => .error (e, reg)
    | .ok (net, gdeeps) => .ok (net, deeps ++ gdeeps)

def DiGraph.wf (g : DiGraph) : Prop :=
  ∀ e ∈ g.edges, e.1.1 ∈ g.nodes ∧ e.1.2 ∈ g.nodes

/-- The first occurrence of u strictly precedes some occurrence of v. -/
def listBefore (u v : Nat) : List Nat → Prop
  | [] => False
  | x :: xs => (x = u ∧ v ∈ xs) ∨ listBefore u v xs

/-- A topological ordering of a DiGraph: it covers exactly the nodes and
every edge goes forward. -/
def topoOf (g : DiGraph) (ord : List Nat) : Prop :=
  (∀ n ∈ g.nodes, n ∈ ord) ∧ (∀ n ∈ ord, n ∈ g.nodes) ∧
  (∀ e ∈ g.edges, listBefore e.1.1 e.1.2 ord)

def netDag (n : Network) : Prop := n.graph.wf ∧ n.graph.isDag = true

def goodDeep (n : Network) : Prop := netDag n ∧ n.isSub = true ∧ n.isFnc = false

def deepsGood (l : List Network) : Prop := ∀ n ∈ l, goodDeep n

/-- A Network whose graph passes the embedded DAG check carries a
topological ordering. -/
def hasTopo (n : Network) : Prop :=
  ∃ ord, n.graph.topoSort = some ord ∧ topoOf n.graph ord

/-- A trivial context and model for closed evaluations. -/
def ctxTriv : Ctx := ⟨["onnx"], fun _ _ => none⟩

def modelTriv : ModelProto := ⟨GraphProto.mk [] [] [] [] [], []⟩

def netTriv : Network := ⟨⟨[], []⟩, [], 0, false, false⟩

def fnF : FunctionProto := ⟨"F", "d", [NodeProto.mk "A" "c" [] ["z"] []]⟩

def modelC6 : ModelProto := ⟨GraphProto.mk [] [] [] [] [], [fnF]⟩

def c6fnNet : Network :=
  ⟨⟨[0], []⟩, [(0, ⟨"A", "c", [], [], [], [("z", "z")]⟩)], 1, true, true⟩

/-- A function body with a self-loop, used to trigger the cyclic-graph
error. -/
def fnG : FunctionProto := ⟨"G", "d", [NodeProto.mk "B" "c" ["x"] ["x"] []]⟩

def regC9 : Registry := [(("F", "d"), RegEntry.net c6fnNet), (("G", "d"), RegEntry.fn fnG)]

/-- Modelled from the spec (section 4.5): the reference resolution loop
that extracts every function exactly once, in declaration order, from
its own body, threading the shared registry; used to state that the
source loop is equivalent to extract-each-exactly-once when the function
keys are distinct. -/
def resolveEachOnce (ctx : Ctx) (fuel : Nat) (de : Bool) :
    List FunctionProto → Registry → List Network →
    Except (ExtractError × Registry) (Registry × List Network)
  | [], reg, acc => .ok (reg, acc)
  | fn :: rest, reg, acc =>
    match extract_from_fp ctx fuel fn reg de true with
    | .error e => .error (e, reg)
    | .ok (net, ds) =>
        resolveEachOnce ctx fuel de rest
          (dinsert (fn.name, fn.domain) (RegEntry.net net) reg) (acc ++ net :: ds)

def subG : GraphProto := .mk [NodeProto.mk "s" "custom" [] ["u"] []] [] [] [("u", "TU")] []

def ifNode : NodeProto := .mk "If" "onnx" [] ["y"]
  [AttributeProto.mk "then_branch" .graph subG [] "", AttributeProto.mk "else_branch" .graph subG [] ""]

def ctxIf : Ctx := ⟨["onnx"], fun t d => if t = "If" ∧ d = "onnx" then some ⟨[], [⟨"o", false⟩]⟩ else none⟩

def gpIf : GraphProto := .mk [ifNode] [] [] [("y", "TY")] []

def netIfShallow : Network :=
  ⟨⟨[0], []⟩,
   [(0, ⟨"If", "onnx",
      [("then_branch", AttrValue.ids []), ("else_branch", AttrValue.ids [])],
      [], [], [("o", "TY")]⟩)], 1, false, false⟩

def subNetIf : Network :=
  ⟨⟨[0], []⟩, [(0, ⟨"s", "custom", [], [], [], [("u", "TU")]⟩)], 1, true, false⟩

def netIfDeep : Network :=
  ⟨⟨[0], []⟩,
   [(0, ⟨"If", "onnx",
      [("then_branch", AttrValue.ids [subNetIf.identifier]),
       ("else_branch", AttrValue.ids [subNetIf.identifier])],
      [], [], [("o", "TY")]⟩)], 1, false, false⟩

def nodeC10 : NodeProto := .mk "q" "custom" ["p"] ["r"] []

def gpC10 : GraphProto := .mk [nodeC10] [] [] [("p", "TP"), ("r", "TR")] []

def netC10 : Network :=
  ⟨⟨[0], []⟩, [(0, ⟨"q", "custom", [], [], [("p", "TP")], [("r", "TR")]⟩)], 1, false, false⟩

def gpC7 : GraphProto :=
  .mk [NodeProto.mk "Op" "onnx" ["w"] ["y"] []] [("w", "FLOAT")] [("w", "TW")] [("y", "TY")] []

def ctxC7 : Ctx :=
  ⟨["onnx"], fun t d => if t = "Op" ∧ d = "onnx" then some ⟨[⟨"W", false⟩], [⟨"o", false⟩]⟩ else none⟩

def netC7 : Network :=
  ⟨⟨[0], []⟩,
   [(0, ⟨"Op", "onnx", [], [("W", ⟨["dims"], "FLOAT"⟩)], [("W", "TW")], [("o", "TY")]⟩)],
   1, false, false⟩

def ctxC8 : Ctx :=
  ⟨["onnx"], fun t d => if t = "Op" ∧ d = "onnx" then some ⟨[⟨"a", false⟩], [⟨"o", false⟩]⟩ else none⟩

def fpC8 : FunctionProto := ⟨"F", "d", [NodeProto.mk "Op" "onnx" ["x0", "x1"] ["y"] []]⟩

def gpC1 : GraphProto := .mk
  [NodeProto.mk "p" "custom" [] ["x"] [],
   NodeProto.mk "c" "custom" ["x"] ["y1"] [],
   NodeProto.mk "c" "custom" ["x"] ["y2"] []]
  [] [] [("x", "TX"), ("y1", "T1"), ("y2", "T2")] []

def modelC1 : ModelProto := ⟨gpC1, []⟩

def netC1 : Network :=
  ⟨⟨[0, 1, 2], [((0, 2), ⟨"x", "x", 0, 0⟩)]⟩,
   [(0, ⟨"p", "custom", [], [], [], [("x", "TX")]⟩),
    (1, ⟨"c", "custom", [], [], [("x", "TX")], [("y1", "T1")]⟩),
    (2, ⟨"c", "custom", [], [], [("x", "TX")], [("y2", "T2")]⟩)],
   3, false, false⟩

def schC2 : OperatorSchema := ⟨[⟨"a", false⟩, ⟨"b", true⟩], [⟨"o", false⟩]⟩

def ctxC2 : Ctx := ⟨["onnx"], fun t d => if t = "Op" ∧ d = "onnx" then some schC2 else none⟩

def nodeC2 : NodeProto := .mk "Op" "onnx" ["x0", "x1", "x2", "x3"] ["y"] []

def gpC2 : GraphProto :=
  .mk [nodeC2] [] [] [("x0", "T0"), ("x1", "T1"), ("x2", "T2"), ("x3", "T3"), ("y", "TY")] []

def fpC2 : FunctionProto := ⟨"F", "d", [nodeC2]⟩

def netC2gp : Network :=
  ⟨⟨[0], []⟩,
   [(0, ⟨"Op", "onnx", [], [], [("a", "T0"), ("b", "T3")], [("o", "TY")]⟩)],
   1, false, false⟩

def netC2fp : Network :=
  ⟨⟨[0], []⟩,
   [(0, ⟨"Op", "onnx", [], [],
     [("a", "x0"), ("b", "x1"), ("b_1", "x2"), ("b_2", "x3")], [("o_2", "y")]⟩)],
   1, false, true⟩

/-! Basic dictionary lemmas. -/

theorem dlookup_dinsert_self {α β : Type} [DecidableEq α] (k : α) (v : β) (d : List (α × β)) :
    dlookup k (dinsert k v d) = some v := by
  induction d with
  | nil => simp [dinsert, dlookup]
  | cons kv rest ih =>
    obtain ⟨k0, v0⟩ := kv
    by_cases h : k0 = k
    · simp [dinsert, dlookup, h]
    · simp [dinsert, dlookup, h, ih]

theorem dlookup_dinsert_ne {α β : Type} [DecidableEq α] {k k0 : α} (v : β) (d : List (α × β))
    (h : k ≠ k0) : dlookup k0 (dinsert k v d) = dlookup k0 d := by
  have hne : ¬(k = k0) := h
  induction d with
  | nil => simp [dinsert, dlookup, hne]
  | cons kv rest ih =>
    obtain ⟨k1, v1⟩ := kv
    by_cases h1 : k1 = k
    · subst h1
      simp [dinsert, dlookup, hne]
    · have hne2 : ¬(k0 = k) := fun hh => hne hh.symm
      by_cases h2 : k1 = k0 <;> simp [dinsert, dlookup, h1, h2, hne2, ih]

theorem mem_dinsert {α β : Type} [DecidableEq α] {k0 : α} {v0 : β} {k : α} {v : β}
    {d : List (α × β)} (h : (k0, v0) ∈ dinsert k v d) :
    (k0 = k ∧ v0 = v) ∨ (k0, v0) ∈ d := by
  induction d with
  | nil =>
    simp [dinsert] at h
    exact Or.inl h
  | cons kv rest ih =>
    obtain ⟨k1, v1⟩ := kv
    by_cases h1 : k1 = k
    · subst h1
      simp [dinsert] at h
      rcases h with h | h
      · exact Or.inl h
      · exact Or.inr (List.mem_cons_of_mem _ h)
    · simp [dinsert, h1] at h
      rcases h with h | h
      · exact Or.inr (by simp [h])
      · rcases ih h with h2 | h2
        · exact Or.inl h2
        · exact Or.inr (List.mem_cons_of_mem _ h2)

theorem dinsert_ne_nil {α β : Type} [DecidableEq α] (k : α) (v : β) (d : List (α × β)) :
    dinsert k v d ≠ [] := by
  cases d with
  | nil => simp [dinsert]
  | cons kv rest =>
    obtain ⟨k1, v1⟩ := kv
    by_cases h : k1 = k <;> simp [dinsert, h]

/-! Well-formedness of the embedded DiGraph: every edge endpoint is a
node.  All graphs built by the engine satisfy it because add_edge adds
missing endpoints. -/

theorem wf_empty : DiGraph.empty.wf := by
  intro e he
  simp [DiGraph.empty] at he

theorem mem_addNode_self (g : DiGraph) (n : Nat) : n ∈ (g.addNode n).nodes := by
  unfold DiGraph.addNode
  by_cases h : n ∈ g.nodes <;> simp [h]

theorem mem_addNode_of_mem (g : DiGraph) (n m : Nat) (h : m ∈ g.nodes) :
    m ∈ (g.addNode n).nodes := by
  unfold DiGraph.addNode
  by_cases h1 : n ∈ g.nodes <;> simp [h1, h]

theorem addNode_edges (g : DiGraph) (n : Nat) : (g.addNode n).edges = g.edges := by
  unfold DiGraph.addNode
  by_cases h : n ∈ g.nodes <;> simp [h]

theorem wf_addNode (g : DiGraph) (n : Nat) (h : g.wf) : (g.addNode n).wf := by
  intro e he
  rw [addNode_edges] at he
  exact ⟨mem_addNode_of_mem _ _ _ (h e he).1, mem_addNode_of_mem _ _ _ (h e he).2⟩

theorem wf_addEdge (g : DiGraph) (u v : Nat) (d : EdgeData) (h : g.wf) :
    (g.addEdge u v d).wf := by
  intro e he
  unfold DiGraph.addEdge at he ⊢
  simp only at he ⊢
  have hwf1 : ((g.addNode u).addNode v).wf := wf_addNode _ _ (wf_addNode _ _ h)
  have hu : u ∈ ((g.addNode u).addNode v).nodes :=
    mem_addNode_of_mem _ _ _ (mem_addNode_self g u)
  have hv : v ∈ ((g.addNode u).addNode v).nodes := mem_addNode_self _ v
  rcases mem_dinsert he with ⟨hk, _⟩ | hmem
  · rw [hk]
    exact ⟨hu, hv⟩
  · exact hwf1 e hmem

theorem wf_edgeStep (i2x o2x : List (String × (Nat × String × Int))) (g : DiGraph)
    (name : String) (h : g.wf) : (edgeStep i2x o2x g name).wf := by
  unfold edgeStep
  cases dlookup name o2x with
  | none => exact h
  | some r =>
    obtain ⟨u, uon, uoi⟩ := r
    cases dlookup name i2x with
    | none => exact h
    | some r2 =>
      obtain ⟨v, von, voi⟩ := r2
      exact wf_addEdge _ _ _ _ h

theorem wf_foldl_edgeStep (i2x o2x : List (String × (Nat × String × Int)))
    (names : List String) (g : DiGraph) (h : g.wf) :
    (names.foldl (edgeStep i2x o2x) g).wf := by
  induction names generalizing g with
  | nil => exact h
  | cons a rest ih => exact ih _ (wf_edgeStep _ _ _ _ h)

theorem wf_edgesLoop (i2x o2x : List (String × (Nat × String × Int)))
    (nodes : List NodeProto) (g : DiGraph) (h : g.wf) :
    (edgesLoop i2x o2x nodes g).wf := by
  induction nodes generalizing g with
  | nil => exact h
  | cons node rest ih =>
    exact ih _ (wf_foldl_edgeStep _ _ _ _ (wf_foldl_edgeStep _ _ _ _ h))

/-! Soundness of Kahn elimination: a successful elimination order covers
exactly the remaining nodes and puts every edge between remaining nodes
in forward direction. -/

theorem kahn_zero (rem : List Nat) (edges : List ((Nat × Nat) × EdgeData)) :
    kahn 0 rem edges = if rem.isEmpty then some [] else none := rfl

theorem kahn_succ_nil (fuel : Nat) (edges : List ((Nat × Nat) × EdgeData)) :
    kahn (fuel + 1) [] edges = some [] := rfl

theorem kahn_succ_cons (fuel : Nat) (r0 : Nat) (rrest : List Nat)
    (edges : List ((Nat × Nat) × EdgeData)) :
    kahn (fuel + 1) (r0 :: rrest) edges =
      match (r0 :: rrest).find? (fun n => edges.all (fun e => !(decide (e.1.2 = n) && decide (e.1.1 ∈ r0 :: rrest)))) with
      | none => none
      | some n => (kahn fuel ((r0 :: rrest).erase n) edges).map (fun ord => n :: ord) := rfl

theorem kahn_sound : ∀ (fuel : Nat) (rem : List Nat) (edges : List ((Nat × Nat) × EdgeData))
    (ord : List Nat), kahn fuel rem edges = some ord →
    (∀ n ∈ rem, n ∈ ord) ∧ (∀ n ∈ ord, n ∈ rem) ∧
    (∀ u v d, ((u, v), d) ∈ edges → u ∈ rem → v ∈ rem → listBefore u v ord) := by
  intro fuel
  induction fuel with
  | zero =>
    intro rem edges ord h
    rw [kahn_zero] at h
    by_cases hr : rem.isEmpty
    · rw [List.isEmpty_iff] at hr
      subst hr
      simp at h
      subst h
      exact ⟨by simp, by simp, by simp [listBefore]⟩
    · simp [hr] at h
  | succ fuel ih =>
    intro rem edges ord h
    cases rem with
    | nil =>
      rw [kahn_succ_nil] at h
      injection h with h
      subst h
      exact ⟨by simp, by simp, by simp [listBefore]⟩
    | cons r0 rrest =>
      rw [kahn_succ_cons] at h
      cases hfind : (r0 :: rrest).find? (fun n => edges.all (fun e => !(decide (e.1.2 = n) && decide (e.1.1 ∈ r0 :: rrest)))) with
      | none =>
        rw [hfind] at h
        exact Option.noConfusion h
      | some n =>
        rw [hfind] at h
        simp only [Option.map_eq_some'] at h
        obtain ⟨ord1, hrec, hcons⟩ := h
        subst hcons
        have hnprop := List.find?_some hfind
        have hnmem : n ∈ r0 :: rrest := List.mem_of_find?_eq_some hfind
        obtain ⟨ihA, ihB, ihC⟩ := ih _ edges ord1 hrec
        refine ⟨?_, ?_, ?_⟩
        · intro m hm
          by_cases hmn : m = n
          · simp [hmn]
          · have hme : m ∈ (r0 :: rrest).erase n := (List.mem_erase_of_ne hmn).mpr hm
            exact List.mem_cons_of_mem _ (ihA m hme)
        · intro m hm
          rcases List.mem_cons.mp hm with hm | hm
          · rw [hm]; exact hnmem
          · exact List.mem_of_mem_erase (ihB m hm)
        · intro u v d hed hu hv
          have hall := List.all_eq_true.mp hnprop ((u, v), d) hed
          simp only [Bool.not_eq_true', Bool.and_eq_false_iff, decide_eq_false_iff_not] at hall
          by_cases hvn : v = n
          · exfalso
            subst hvn
            rcases hall with hall | hall
            · exact hall rfl
            · exact hall hu
          · have hv1 : v ∈ (r0 :: rrest).erase n := (List.mem_erase_of_ne hvn).mpr hv
            by_cases hun : u = n
            · exact Or.inl ⟨hun.symm, ihA v hv1⟩
            · have hu1 : u ∈ (r0 :: rrest).erase n := (List.mem_erase_of_ne hun).mpr hu
              exact Or.inr (ihC u v d hed hu1 hv1)

/-- A well-formed graph that passes the DAG check of the engine carries
a genuine topological ordering of its vertices. -/
theorem isDag_topoOf (g : DiGraph) (hwf : g.wf) (h : g.isDag = true) :
    ∃ ord, g.topoSort = some ord ∧ topoOf g ord := by
  unfold DiGraph.isDag at h
  cases hs : g.topoSort with
  | none => rw [hs] at h; simp at h
  | some ord =>
    obtain ⟨hA, hB, hC⟩ := kahn_sound g.nodes.length g.nodes g.edges ord hs
    refine ⟨ord, rfl, hA, hB, ?_⟩
    intro e he
    exact hC e.1.1 e.1.2 e.2 (by simpa using he) (hwf e he).1 (hwf e he).2

/-! Step equations for the fueled mutual functions. -/

theorem extract_from_gp_zero (ctx : Ctx) (gp : GraphProto) (reg : Registry) (de isSub : Bool) :
    extract_from_gp ctx 0 gp reg de isSub = .error .fuelOut := rfl

theorem extract_from_gp_succ (ctx : Ctx) (fuel : Nat) (gp : GraphProto) (reg : Registry)
    (de isSub : Bool) :
    extract_from_gp ctx (fuel + 1) gp reg de isSub =
      (match processGpNodes ctx fuel (pmInfoOf gp) (ioInfoOf gp) reg de 0 gp.node ⟨[], [], DiGraph.empty, [], 0, []⟩ with
       | .error e => .error e
       | .ok st =>
         if (edgesLoop st.i2x st.o2x gp.node st.g).isDag
         then .ok (⟨edgesLoop st.i2x st.o2x gp.node st.g, st.nnNodes, st.nnSize, isSub, false⟩, st.deeps)
         else .error .cyclicGraph) := rfl

theorem extract_from_fp_zero (ctx : Ctx) (fp : FunctionProto) (reg : Registry) (de isSub : Bool) :
    extract_from_fp ctx 0 fp reg de isSub = .error .fuelOut := rfl

theorem extract_from_fp_succ (ctx : Ctx) (fuel : Nat) (fp : FunctionProto) (reg : Registry)
    (de isSub : Bool) :
    extract_from_fp ctx (fuel + 1) fp reg de isSub =
      (match processFpNodes ctx fuel reg de 0 fp.node ⟨[], [], DiGraph.empty, [], 0, []⟩ with
       | .error e => .error e
       | .ok st =>
         if (edgesLoop st.i2x st.o2x fp.node st.g).isDag
         then .ok (⟨edgesLoop st.i2x st.o2x fp.node st.g, st.nnNodes, st.nnSize, isSub, true⟩, st.deeps)
         else .error .cyclicGraph) := rfl

theorem processGpNodes_zero (ctx : Ctx) (pm : List (String × PmInfo)) (io : List (String × String))
    (reg : Registry) (de : Bool) (nid : Nat) (nodes : List NodeProto) (st : LoopState) :
    processGpNodes ctx 0 pm io reg de nid nodes st = .error .fuelOut := rfl

theorem processGpNodes_succ_nil (ctx : Ctx) (fuel : Nat) (pm : List (String × PmInfo))
    (io : List (String × String)) (reg : Registry) (de : Bool) (nid : Nat) (st : LoopState) :
    processGpNodes ctx (fuel + 1) pm io reg de nid [] st = .ok st := rfl

theorem processGpNodes_succ_cons (ctx : Ctx) (fuel : Nat) (pm : List (String × PmInfo))
    (io : List (String × String)) (reg : Registry) (de : Bool) (nid : Nat)
    (node : NodeProto) (rest : List NodeProto) (st : LoopState) :
    processGpNodes ctx (fuel + 1) pm io reg de nid (node :: rest) st =
      (match processGpNode ctx fuel pm io reg de nid node st with
       | .error e => .error e
       | .ok st1 => processGpNodes ctx fuel pm io reg de (nid + 1) rest st1) := rfl

theorem processGpNode_zero (ctx : Ctx) (pm : List (String × PmInfo)) (io : List (String × String))
    (reg : Registry) (de : Bool) (nid : Nat) (node : NodeProto) (st : LoopState) :
    processGpNode ctx 0 pm io reg de nid node st = .error .fuelOut := rfl

theorem processGpNode_succ (ctx : Ctx) (fuel : Nat) (pm : List (String × PmInfo))
    (io : List (String × String)) (reg : Registry) (de : Bool) (nid : Nat)
    (node : NodeProto) (st : LoopState) :
    processGpNode ctx (fuel + 1) pm io reg de nid node st =
      (if node.domain ∈ ctx.operatorDomains then
        match ctx.getSchema node.op_type node.domain with
        | none => .error .unknownOperator
        | some op =>
          match attrsLoop ctx fuel reg de node.attribute [] st.deeps with
          | .error e => .error e
          | .ok (attrs, deeps1) =>
            match gpParamsLoop op.inputs pm node.input 0 0 [] with
            | .error e => .error e
            | .ok params =>
              match gpSlotLoop op.inputs io nid node.input 0 0 st.i2x [] with
              | .error e => .error e
              | .ok (i2x1, operands) =>
                match gpSlotLoop op.outputs io nid node.output 0 0 st.o2x [] with
                | .error e => .error e
                | .ok (o2x1, results) =>
                  .ok ⟨i2x1, o2x1, st.g.addNode nid,
                       dinsert nid ⟨node.op_type, node.domain, attrs, params, operands, results⟩ st.nnNodes,
                       st.nnSize + 1, deeps1⟩
      else
        match dlookup (node.op_type, node.domain) reg with
        | some (RegEntry.fn _) => .error .assertionError
        | entry =>
          .ok ⟨(customLoop nid (fun inp => dlookup inp io) node.input 0 st.i2x []).1,
               (customLoop nid (fun inp => dlookup inp io) node.output 0 st.o2x []).1,
               st.g.addNode nid,
               dinsert nid ⟨node.op_type, node.domain,
                 (match entry with
                  | some (RegEntry.net n) => [("function", AttrValue.fnRef n.identifier)]
                  | _ => []),
                 [], (customLoop nid (fun inp => dlookup inp io) node.input 0 st.i2x []).2,
                 (customLoop nid (fun inp => dlookup inp io) node.output 0 st.o2x []).2⟩ st.nnNodes,
               st.nnSize + 1, st.deeps⟩) := rfl

theorem processFpNodes_zero (ctx : Ctx) (reg : Registry) (de : Bool) (nid : Nat)
    (nodes : List NodeProto) (st : LoopState) :
    processFpNodes ctx 0 reg de nid nodes st = .error .fuelOut := rfl

theorem processFpNodes_succ_nil (ctx : Ctx) (fuel : Nat) (reg : Registry) (de : Bool)
    (nid : Nat) (st : LoopState) :
    processFpNodes ctx (fuel + 1) reg de nid [] st = .ok st := rfl

theorem processFpNodes_succ_cons (ctx : Ctx) (fuel : Nat) (reg : Registry) (de : Bool)
    (nid : Nat) (node : NodeProto) (rest : List NodeProto) (st : LoopState) :
    processFpNodes ctx (fuel + 1) reg de nid (node :: rest) st =
      (match processFpNode ctx fuel reg de nid node st with
       | .error e => .error e
       | .ok st1 => processFpNodes ctx fuel reg de (nid + 1) rest st1) := rfl

theorem processFpNode_zero (ctx : Ctx) (reg : Registry) (de : Bool) (nid : Nat)
    (node : NodeProto) (st : LoopState) :
    processFpNode ctx 0 reg de nid node st = .error .fuelOut := rfl

theorem processFpNode_succ (ctx : Ctx) (fuel : Nat) (reg : Registry) (de : Bool) (nid : Nat)
    (node : NodeProto) (st : LoopState) :
    processFpNode ctx (fuel + 1) reg de nid node st =
      (if node.domain ∈ ctx.operatorDomains then
        match ctx.getSchema node.op_type node.domain with
        | none => .error .unknownOperator
        | some op =>
          match attrsLoop ctx fuel reg de node.attribute [] st.deeps with
          | .error e => .error e
          | .ok (attrs, deeps1) =>
            match fpSlotLoop op.inputs nid node.input 0 0 st.i2x [] with
            | .error e => .error e
            | .ok (vi1, i2x1, operands) =>
              match fpSlotLoop op.outputs nid node.output 0 vi1 st.o2x [] with
              | .error e => .error e
              | .ok (_, o2x1, results) =>
                .ok ⟨i2x1, o2x1, st.g.addNode nid,
                     dinsert nid ⟨node.op_type, node.domain, attrs, [], operands, results⟩ st.nnNodes,
                     st.nnSize + 1, deeps1⟩
      else
        match dlookup (node.op_type, node.domain) reg with
        | some (RegEntry.fn f) =>
          match extract_from_fp ctx fuel f reg de true with
          | .error e => .error e
          | .ok _ => .error .nameError
        | entry =>
          .ok ⟨(customLoop nid (fun inp => some inp) node.input 0 st.i2x []).1,
               (customLoop nid (fun inp => some inp) node.output 0 st.o2x []).1,
               st.g.addNode nid,
               dinsert nid ⟨node.op_type, node.domain,
                 (match entry with
                  | some (RegEntry.net n) => [("function", AttrValue.fnRef n.identifier)]
                  | _ => []),
                 [], (customLoop nid (fun inp => some inp) node.input 0 st.i2x []).2,
                 (customLoop nid (fun inp => some inp) node.output 0 st.o2x []).2⟩ st.nnNodes,
               st.nnSize + 1, st.deeps⟩) := rfl

theorem attrsLoop_zero (ctx : Ctx) (reg : Registry) (de : Bool) (attrs : List AttributeProto)
    (amap : List (String × AttrValue)) (deeps : List Network) :
    attrsLoop ctx 0 reg de attrs amap deeps = .error .fuelOut := rfl

theorem attrsLoop_succ_nil (ctx : Ctx) (fuel : Nat) (reg : Registry) (de : Bool)
    (amap : List (String × AttrValue)) (deeps : List Network) :
    attrsLoop ctx (fuel + 1) reg de [] amap deeps = .ok (amap, deeps) := rfl

theorem attrsLoop_succ_cons (ctx : Ctx) (fuel : Nat) (reg : Registry) (de : Bool)
    (a : AttributeProto) (rest : List AttributeProto)
    (amap : List (String × AttrValue)) (deeps : List Network) :
    attrsLoop ctx (fuel + 1) reg de (a :: rest) amap deeps =
      (if a.kind = AttrKind.graph ∨ a.kind = AttrKind.graphs then
        match (if de = true ∧ a.kind = AttrKind.graph then
                 match extract_from_gp ctx fuel a.g reg de true with
                 | .error e => .error e
                 | .ok (n, ds) => .ok ([n], ds)
               else .ok ([], []) :
               Except ExtractError (List Network × List Network)) with
        | .error e => .error e
        | .ok (allE1, allD1) =>
          match (if de = true ∧ a.kind = AttrKind.graphs then
                   graphsLoop ctx fuel reg de a.graphs [] []
                 else .ok ([], []) :
                 Except ExtractError (List Network × List Network)) with
          | .error e => .error e
          | .ok (allE2, allD2) =>
            attrsLoop ctx fuel reg de rest
              (dinsert a.name (AttrValue.ids ((allE1 ++ allE2).map Network.identifier)) amap)
              (deeps ++ (allE1 ++ allE2) ++ (allD1 ++ allD2))
      else
        attrsLoop ctx fuel reg de rest
          (dinsert a.name (AttrValue.raw a.payload) amap) deeps) := rfl

theorem graphsLoop_zero (ctx : Ctx) (reg : Registry) (de : Bool) (gs : List GraphProto)
    (accE accD : List Network) :
    graphsLoop ctx 0 reg de gs accE accD = .error .fuelOut := rfl

theorem graphsLoop_succ_nil (ctx : Ctx) (fuel : Nat) (reg : Registry) (de : Bool)
    (accE accD : List Network) :
    graphsLoop ctx (fuel + 1) reg de [] accE accD = .ok (accE, accD) := rfl

theorem graphsLoop_succ_cons (ctx : Ctx) (fuel : Nat) (reg : Registry) (de : Bool)
    (g : GraphProto) (rest : List GraphProto) (accE accD : List Network) :
    graphsLoop ctx (fuel + 1) reg de (g :: rest) accE accD =
      (match extract_from_gp ctx fuel g reg de true with
       | .error e => .error e
       | .ok (n, ds) => graphsLoop ctx fuel reg de rest (accE ++ [n]) (accD ++ ds)) := rfl

/-! The main structural invariant: every Network the engine returns has
a well-formed acyclic graph, networks discovered through graph-valued
attributes always carry is_sub true and is_fnc false, graph-level
networks carry is_fnc false and function-level networks is_fnc true. -/

theorem deepsGood_nil : deepsGood [] := by
  intro n h
  cases h

theorem deepsGood_append {a b : List Network} (ha : deepsGood a) (hb : deepsGood b) :
    deepsGood (a ++ b) := by
  intro n hn
  rcases List.mem_append.mp hn with h | h
  · exact ha n h
  · exact hb n h

theorem deepsGood_singleton {n : Network} (h : goodDeep n) : deepsGood [n] := by
  intro m hm
  rcases List.mem_singleton.mp hm with rfl
  exact h

theorem extractInvariant (ctx : Ctx) : ∀ fuel : Nat,
    (∀ gp reg de isSub n ds, extract_from_gp ctx fuel gp reg de isSub = .ok (n, ds) →
       (netDag n ∧ n.isSub = isSub ∧ n.isFnc = false) ∧ deepsGood ds) ∧
    (∀ fp reg de isSub n ds, extract_from_fp ctx fuel fp reg de isSub = .ok (n, ds) →
       (netDag n ∧ n.isSub = isSub ∧ n.isFnc = true) ∧ deepsGood ds) ∧
    (∀ pm io reg de nid nodes st st1, processGpNodes ctx fuel pm io reg de nid nodes st = .ok st1 →
       (st.g.wf → st1.g.wf) ∧ (deepsGood st.deeps → deepsGood st1.deeps)) ∧
    (∀ pm io reg de nid node st st1, processGpNode ctx fuel pm io reg de nid node st = .ok st1 →
       (st.g.wf → st1.g.wf) ∧ (deepsGood st.deeps → deepsGood st1.deeps)) ∧
    (∀ reg de nid nodes st st1, processFpNodes ctx fuel reg de nid nodes st = .ok st1 →
       (st.g.wf → st1.g.wf) ∧ (deepsGood st.deeps → deepsGood st1.deeps)) ∧
    (∀ reg de nid node st st1, processFpNode ctx fuel reg de nid node st = .ok st1 →
       (st.g.wf → st1.g.wf) ∧ (deepsGood st.deeps → deepsGood st1.deeps)) ∧
    (∀ reg de attrs amap deeps amap1 deeps1,
       attrsLoop ctx fuel reg de attrs amap deeps = .ok (amap1, deeps1) →
       deepsGood deeps → deepsGood deeps1) ∧
    (∀ reg de gs accE accD accE1 accD1,
       graphsLoop ctx fuel reg de gs accE accD = .ok (accE1, accD1) →
       deepsGood accE → deepsGood accD → deepsGood accE1 ∧ deepsGood accD1) := by
  intro fuel
  induction fuel with
  | zero =>
    refine ⟨?_, ?_, ?_, ?_, ?_, ?_, ?_, ?_⟩
    · intro gp reg de isSub n ds h
      rw [extract_from_gp_zero] at h
      exact Except.noConfusion h
    · intro fp reg de isSub n ds h
      rw [extract_from_fp_zero] at h
      exact Except.noConfusion h
    · intro pm io reg de nid nodes st st1 h
      rw [processGpNodes_zero] at h
      exact Except.noConfusion h
    · intro pm io reg de nid node st st1 h
      rw [processGpNode_zero] at h
      exact Except.noConfusion h
    · intro reg de nid nodes st st1 h
      rw [processFpNodes_zero] at h
      exact Except.noConfusion h
    · intro reg de nid node st st1 h
      rw [processFpNode_zero] at h
      exact Except.noConfusion h
    · intro reg de attrs amap deeps amap1 deeps1 h
      rw [attrsLoop_zero] at h
      exact Except.noConfusion h
    · intro reg de gs accE accD accE1 accD1 h
      rw [graphsLoop_zero] at h
      exact Except.noConfusion h
  | succ fuel ih =>
    obtain ⟨ihGp, ihFp, ihGpNs, ihGpN, ihFpNs, ihFpN, ihAt, ihGr⟩ := ih
    refine ⟨?_, ?_, ?_, ?_, ?_, ?_, ?_, ?_⟩
    · intro gp reg de isSub n ds h
      rw [extract_from_gp_succ] at h
      split at h
      · exact Except.noConfusion h
      · rename_i st heq
        split at h
        · rename_i hd
          injection h with h
          rw [Prod.mk.injEq] at h
          obtain ⟨hn, hds⟩ := h
          subst hn
          subst hds
          obtain ⟨hw, hdeep⟩ := ihGpNs _ _ _ _ _ _ _ _ heq
          exact ⟨⟨⟨wf_edgesLoop _ _ _ _ (hw wf_empty), hd⟩, rfl, rfl⟩, hdeep deepsGood_nil⟩
        · exact Except.noConfusion h
    · intro fp reg de isSub n ds h
      rw [extract_from_fp_succ] at h
      split at h
      · exact Except.noConfusion h
      · rename_i st heq
        split at h
        · rename_i hd
          injection h with h
          rw [Prod.mk.injEq] at h
          obtain ⟨hn, hds⟩ := h
          subst hn
          subst hds
          obtain ⟨hw, hdeep⟩ := ihFpNs _ _ _ _ _ _ heq
          exact ⟨⟨⟨wf_edgesLoop _ _ _ _ (hw wf_empty), hd⟩, rfl, rfl⟩, hdeep deepsGood_nil⟩
        · exact Except.noConfusion h
    · intro pm io reg de nid nodes st st1 h
      cases nodes with
      | nil =>
        rw [processGpNodes_succ_nil] at h
        injection h with h
        subst h
        exact ⟨id, id⟩
      | cons node rest =>
        rw [processGpNodes_succ_cons] at h
        split at h
        · exact Except.noConfusion h
        · rename_i stm hstep
          obtain ⟨hw1, hd1⟩ := ihGpN _ _ _ _ _ _ _ _ hstep
          obtain ⟨hw2, hd2⟩ := ihGpNs _ _ _ _ _ _ _ _ h
          exact ⟨fun hw => hw2 (hw1 hw), fun hd => hd2 (hd1 hd)⟩
    · intro pm io reg de nid node st st1 h
      rw [processGpNode_succ] at h
      split at h
      · split at h
        · exact Except.noConfusion h
        · rename_i op hop
          split at h
          · exact Except.noConfusion h
          · rename_i attrs deeps1 hat
            split at h
            · exact Except.noConfusion h
            · rename_i params hpar
              split at h
              · exact Except.noConfusion h
              · rename_i i2x1 operands hs1
                split at h
                · exact Except.noConfusion h
                · rename_i o2x1 results hs2
                  injection h with h
                  subst h
                  exact ⟨fun hw => wf_addNode _ _ hw, fun hd => ihAt _ _ _ _ _ _ _ hat hd⟩
      · split at h
        · exact Except.noConfusion h
        · injection h with h
          subst h
          exact ⟨fun hw => wf_addNode _ _ hw, fun hd => hd⟩
    · intro reg de nid nodes st st1 h
      cases nodes with
      | nil =>
        rw [processFpNodes_succ_nil] at h
        injection h with h
        subst h
        exact ⟨id, id⟩
      | cons node rest =>
        rw [processFpNodes_succ_cons] at h
        split at h
        · exact Except.noConfusion h
        · rename_i stm hstep
          obtain ⟨hw1, hd1⟩ := ihFpN _ _ _ _ _ _ hstep
          obtain ⟨hw2, hd2⟩ := ihFpNs _ _ _ _ _ _ h
          exact ⟨fun hw => hw2 (hw1 hw), fun hd => hd2 (hd1 hd)⟩
    · intro reg de nid node st st1 h
      rw [processFpNode_succ] at h
      split at h
      · split at h
        · exact Except.noConfusion h
        · rename_i op hop
          split at h
          · exact Except.noConfusion h
          · rename_i attrs deeps1 hat
            split at h
            · exact Except.noConfusion h
            · rename_i vi1 i2x1 operands hs1
              split at h
              · exact Except.noConfusion h
              · rename_i vi2 o2x1 results hs2
                injection h with h
                subst h
                exact ⟨fun hw => wf_addNode _ _ hw, fun hd => ihAt _ _ _ _ _ _ _ hat hd⟩
      · split at h
        · split at h
          · exact Except.noConfusion h
          · exact Except.noConfusion h
        · injection h with h
          subst h
          exact ⟨fun hw => wf_addNode _ _ hw, fun hd => hd⟩
    · intro reg de attrs amap deeps amap1 deeps1 h hgood
      cases attrs with
      | nil =>
        rw [attrsLoop_succ_nil] at h
        injection h with h
        rw [Prod.mk.injEq] at h
        obtain ⟨h1, h2⟩ := h
        subst h2
        exact hgood
      | cons a rest =>
        rw [attrsLoop_succ_cons] at h
        by_cases hk : a.kind = AttrKind.graph ∨ a.kind = AttrKind.graphs
        · rw [if_pos hk] at h
          by_cases hc1 : de = true ∧ a.kind = AttrKind.graph
          · rw [if_pos hc1] at h
            cases hx : extract_from_gp ctx fuel a.g reg de true with
            | error e => rw [hx] at h; exact Except.noConfusion h
            | ok pr =>
              obtain ⟨n1, ds1⟩ := pr
              rw [hx] at h
              have hc2 : ¬(de = true ∧ a.kind = AttrKind.graphs) := by
                rintro ⟨_, hg⟩
                rw [hc1.2] at hg
                exact AttrKind.noConfusion hg
              rw [if_neg hc2] at h
              have h2 : attrsLoop ctx fuel reg de rest
                  (dinsert a.name (AttrValue.ids (([n1] ++ []).map Network.identifier)) amap)
                  (deeps ++ ([n1] ++ []) ++ (ds1 ++ [])) = .ok (amap1, deeps1) := h
              obtain ⟨hmain, hds⟩ := ihGp _ _ _ _ _ _ hx
              refine ihAt _ _ _ _ _ _ _ h2 ?_
              exact deepsGood_append
                (deepsGood_append hgood
                  (deepsGood_append (deepsGood_singleton ⟨hmain.1, hmain.2.1, hmain.2.2⟩) deepsGood_nil))
                (deepsGood_append hds deepsGood_nil)
          · rw [if_neg hc1] at h
            by_cases hc2 : de = true ∧ a.kind = AttrKind.graphs
            · rw [if_pos hc2] at h
              cases hx : graphsLoop ctx fuel reg de a.graphs [] [] with
              | error e => rw [hx] at h; exact Except.noConfusion h
              | ok pr =>
                obtain ⟨es, dss⟩ := pr
                rw [hx] at h
                have h2 : attrsLoop ctx fuel reg de rest
                    (dinsert a.name (AttrValue.ids (([] ++ es).map Network.identifier)) amap)
                    (deeps ++ ([] ++ es) ++ ([] ++ dss)) = .ok (amap1, deeps1) := h
                obtain ⟨hes, hdss⟩ := ihGr _ _ _ _ _ _ _ hx deepsGood_nil deepsGood_nil
                refine ihAt _ _ _ _ _ _ _ h2 ?_
                exact deepsGood_append
                  (deepsGood_append hgood (deepsGood_append deepsGood_nil hes))
                  (deepsGood_append deepsGood_nil hdss)
            · rw [if_neg hc2] at h
              have h2 : attrsLoop ctx fuel reg de rest
                  (dinsert a.name (AttrValue.ids (([] ++ []).map Network.identifier)) amap)
                  (deeps ++ ([] ++ []) ++ ([] ++ [])) = .ok (amap1, deeps1) := h
              refine ihAt _ _ _ _ _ _ _ h2 ?_
              exact deepsGood_append
                (deepsGood_append hgood (deepsGood_append deepsGood_nil deepsGood_nil))
                (deepsGood_append deepsGood_nil deepsGood_nil)
        · rw [if_neg hk] at h
          exact ihAt _ _ _ _ _ _ _ h hgood
    · intro reg de gs accE accD accE1 accD1 h hE hD
      cases gs with
      | nil =>
        rw [graphsLoop_succ_nil] at h
        injection h with h
        rw [Prod.mk.injEq] at h
        obtain ⟨h1, h2⟩ := h
        subst h1
        subst h2
        exact ⟨hE, hD⟩
      | cons g rest =>
        rw [graphsLoop_succ_cons] at h
        split at h
        · exact Except.noConfusion h
        · rename_i n1 ds1 hx
          obtain ⟨hmain, hds⟩ := ihGp _ _ _ _ _ _ hx
          exact ihGr _ _ _ _ _ _ _ h
            (deepsGood_append hE (deepsGood_singleton ⟨hmain.1, hmain.2.1, hmain.2.2⟩))
            (deepsGood_append hD hds)

theorem dlookup_dinsert_or {α β : Type} [DecidableEq α] {k k0 : α} {v w : β}
    {d : List (α × β)} (h : dlookup k0 (dinsert k v d) = some w) :
    (k0 = k ∧ w = v) ∨ dlookup k0 d = some w := by
  by_cases he : k = k0
  · subst he
    rw [dlookup_dinsert_self] at h
    injection h with h
    exact Or.inl ⟨rfl, h.symm⟩
  · rw [dlookup_dinsert_ne _ _ he] at h
    exact Or.inr h

theorem processFunctions_nil (ctx : Ctx) (fuel : Nat) (de : Bool) (reg : Registry)
    (acc : List Network) : processFunctions ctx fuel de [] reg acc = .ok (reg, acc) := rfl

theorem processFunctions_cons (ctx : Ctx) (fuel : Nat) (de : Bool) (fn : FunctionProto)
    (rest : List FunctionProto) (reg : Registry) (acc : List Network) :
    processFunctions ctx fuel de (fn :: rest) reg acc =
      (match dlookup (fn.name, fn.domain) reg with
       | none => .error (.keyError, reg)
       | some (RegEntry.fn _) =>
         match extract_from_fp ctx fuel fn reg de true with
         | .error e => .error (e, reg)
         | .ok (net, ds) =>
             processFunctions ctx fuel de rest
               (dinsert (fn.name, fn.domain) (RegEntry.net net) reg) (acc ++ net :: ds)
       | some (RegEntry.net net) => processFunctions ctx fuel de rest reg (acc ++ [net])) := rfl

theorem extract_network_def (ctx : Ctx) (fuel : Nat) (model : ModelProto) :
    extract_network ctx fuel model =
      (match extract_from_gp ctx fuel model.graph [] false false with
       | .error e => .error e
       | .ok (net, _) => .ok net) := rfl

theorem extract_networks_def (ctx : Ctx) (fuel : Nat) (model : ModelProto) (de : Bool) :
    extract_networks ctx fuel model de =
      (match processFunctions ctx fuel de model.functions (seedRegistry model.functions) [] with
       | .error e => .error e
       | .ok (reg, deeps) =>
         match extract_from_gp ctx fuel model.graph reg de false with
         | .error e => .error (e, reg)
         | .ok (net, gdeeps) => .ok (net, deeps ++ gdeeps)) := rfl

/-- Every resolved Network stored by the function loop, and every
appended one, has a well-formed acyclic graph, is marked is_sub true
and (for the registry entries) is_fnc true. -/
theorem processFunctions_good (ctx : Ctx) (fuel : Nat) (de : Bool) :
    ∀ (fns : List FunctionProto) (reg : Registry) (acc : List Network)
      (reg1 : Registry) (nets : List Network),
    processFunctions ctx fuel de fns reg acc = .ok (reg1, nets) →
    (∀ k nn, dlookup k reg = some (RegEntry.net nn) → netDag nn ∧ nn.isSub = true ∧ nn.isFnc = true) →
    (∀ n ∈ acc, netDag n ∧ n.isSub = true) →
    (∀ k nn, dlookup k reg1 = some (RegEntry.net nn) → netDag nn ∧ nn.isSub = true ∧ nn.isFnc = true) ∧
    (∀ n ∈ nets, netDag n ∧ n.isSub = true) := by
  intro fns
  induction fns with
  | nil =>
    intro reg acc reg1 nets h hreg hacc
    rw [processFunctions_nil] at h
    injection h with h
    rw [Prod.mk.injEq] at h
    obtain ⟨h1, h2⟩ := h
    subst h1
    subst h2
    exact ⟨hreg, hacc⟩
  | cons fn rest ih =>
    intro reg acc reg1 nets h hreg hacc
    rw [processFunctions_cons] at h
    split at h
    · exact Except.noConfusion h
    · split at h
      · exact Except.noConfusion h
      · rename_i net ds hx
        obtain ⟨⟨hnd, hsub, hfnc⟩, hds⟩ := (extractInvariant ctx fuel).2.1 _ _ _ _ _ _ hx
        refine ih _ _ _ _ h ?_ ?_
        · intro k nn hk
          rcases dlookup_dinsert_or hk with ⟨_, hw⟩ | hk2
          · injection hw with hw
            subst hw
            exact ⟨hnd, hsub, hfnc⟩
          · exact hreg k nn hk2
        · intro n hn
          rcases List.mem_append.mp hn with hn | hn
          · exact hacc n hn
          · rcases List.mem_cons.mp hn with hn | hn
            · subst hn
              exact ⟨hnd, hsub⟩
            · obtain ⟨hndd, hsubd, _⟩ := hds n hn
              exact ⟨hndd, hsubd⟩
    · rename_i net hk
      refine ih _ _ _ _ h hreg ?_
      intro n hn
      rcases List.mem_append.mp hn with hn | hn
      · exact hacc n hn
      · rcases List.mem_singleton.mp hn with rfl
        obtain ⟨hnd, hsub, _⟩ := hreg _ _ hk
        exact ⟨hnd, hsub⟩

/-- The seeded registry holds no resolved Network. -/
theorem seedRegistry_no_net (fns : List FunctionProto) :
    ∀ k nn, dlookup k (seedRegistry fns) = some (RegEntry.net nn) → False := by
  have hgen : ∀ (fns : List FunctionProto) (r : Registry),
      (∀ k nn, dlookup k r = some (RegEntry.net nn) → False) →
      ∀ k nn, dlookup k (fns.foldl (fun r f => dinsert (f.name, f.domain) (RegEntry.fn f) r) r) = some (RegEntry.net nn) → False := by
    intro fns
    induction fns with
    | nil => intro r hr k nn h; exact hr k nn h
    | cons f rest ih =>
      intro r hr k nn h
      refine ih _ ?_ k nn h
      intro k1 nn1 h1
      rcases dlookup_dinsert_or h1 with ⟨_, hw⟩ | h2
      · exact RegEntry.noConfusion hw
      · exact hr k1 nn1 h2
  intro k nn h
  exact hgen fns [] (fun k nn h => by simp [dlookup] at h) k nn h

theorem netDag_hasTopo {n : Network} (h : netDag n) : hasTopo n :=
  isDag_topoOf _ h.1 h.2

/-- C4: every Network returned successfully by extract_network or
extract_networks, including every nested Network in the deep-discovered
list, has an acyclic directed graph, witnessed by a topological ordering
of its vertices; and when the producer-consumer edges assembled at a
graph level fail the DAG check, that level fails with the cyclic-graph
error instead of returning a Network. -/
theorem C4_acyclicity :
    (∀ ctx fuel model net, extract_network ctx fuel model = .ok net → hasTopo net) ∧
    (∀ ctx fuel model de net deeps, extract_networks ctx fuel model de = .ok (net, deeps) →
       hasTopo net ∧ ∀ d ∈ deeps, hasTopo d) ∧
    (∀ ctx fuel gp reg de isSub st,
       processGpNodes ctx fuel (pmInfoOf gp) (ioInfoOf gp) reg de 0 gp.node ⟨[], [], DiGraph.empty, [], 0, []⟩ = .ok st →
       (edgesLoop st.i2x st.o2x gp.node st.g).isDag = false →
       extract_from_gp ctx (fuel + 1) gp reg de isSub = .error .cyclicGraph) ∧
    (∀ ctx fuel fp reg de isSub st,
       processFpNodes ctx fuel reg de 0 fp.node ⟨[], [], DiGraph.empty, [], 0, []⟩ = .ok st →
       (edgesLoop st.i2x st.o2x fp.node st.g).isDag = false →
       extract_from_fp ctx (fuel + 1) fp reg de isSub = .error .cyclicGraph) := by
  refine ⟨?_, ?_, ?_, ?_⟩
  · intro ctx fuel model net h
    rw [extract_network_def] at h
    split at h
    · exact Except.noConfusion h
    · rename_i net0 ds hx
      injection h with h
      subst h
      exact netDag_hasTopo ((extractInvariant ctx fuel).1 _ _ _ _ _ _ hx).1.1
  · intro ctx fuel model de net deeps h
    rw [extract_networks_def] at h
    split at h
    · exact Except.noConfusion h
    · rename_i reg deeps1 hpf
      split at h
      · exact Except.noConfusion h
      · rename_i net0 gdeeps hgp
        injection h with h
        rw [Prod.mk.injEq] at h
        obtain ⟨h1, h2⟩ := h
        subst h1
        subst h2
        obtain ⟨⟨hnd, _, _⟩, hgds⟩ := (extractInvariant ctx fuel).1 _ _ _ _ _ _ hgp
        obtain ⟨_, hnets⟩ := processFunctions_good ctx fuel de _ _ _ _ _ hpf
          (fun k nn hk => (seedRegistry_no_net model.functions k nn hk).elim)
          (fun n hn => absurd hn (List.not_mem_nil n))
        constructor
        · exact netDag_hasTopo hnd
        · intro d hd
          rcases List.mem_append.mp hd with hd | hd
          · exact netDag_hasTopo (hnets d hd).1
          · exact netDag_hasTopo (hgds d hd).1
  · intro ctx fuel gp reg de isSub st hst hd
    rw [extract_from_gp_succ, hst]
    show (if (edgesLoop st.i2x st.o2x gp.node st.g).isDag = true
        then (Except.ok (⟨edgesLoop st.i2x st.o2x gp.node st.g, st.nnNodes, st.nnSize, isSub, false⟩, st.deeps) :
          Except ExtractError (Network × List Network))
        else .error .cyclicGraph) = .error .cyclicGraph
    rw [if_neg (by simp [hd])]
  · intro ctx fuel fp reg de isSub st hst hd
    rw [extract_from_fp_succ, hst]
    show (if (edgesLoop st.i2x st.o2x fp.node st.g).isDag = true
        then (Except.ok (⟨edgesLoop st.i2x st.o2x fp.node st.g, st.nnNodes, st.nnSize, isSub, true⟩, st.deeps) :
          Except ExtractError (Network × List Network))
        else .error .cyclicGraph) = .error .cyclicGraph
    rw [if_neg (by simp [hd])]

/-- Witness for C4: the concrete trivial model extracts successfully and
the theorem yields topological orderings for everything returned. -/
theorem C4_acyclicity_witness :
    extract_networks ctxTriv 3 modelTriv false = .ok (netTriv, []) ∧
    (hasTopo netTriv ∧ ∀ d ∈ ([] : List Network), hasTopo d) :=
  ⟨rfl, C4_acyclicity.2.1 ctxTriv 3 modelTriv false netTriv [] rfl⟩

/-! Claim C6 concerns the provenance flags of function body networks. -/

/-- Counterexample to C6: the claim states that function bodies are
extracted with is_subgraph false-equivalent semantics, but
extract_networks passes is_sub=True at extraction.py line 43, so the
function body network of this concrete one-function model carries
is_sub true, not false. -/
theorem C6_counterexample :
    extract_networks ctxTriv 6 modelC6 false = .ok (netTriv, [c6fnNet]) ∧
    c6fnNet.isSub = true ∧ c6fnNet.isFnc = true := ⟨rfl, rfl, rfl⟩

/-- C6 amended: every function body resolved during extract_networks is
extracted with is_function_body true and is_subgraph TRUE (not false):
extract_from_fp tags its network with the passed is_sub flag and is_fnc
true, the registry entries resolved by the function loop all carry
is_fnc true and is_sub true, and every network in the deep list of a
successful extract_networks call carries is_sub true. -/
theorem C6_function_body_flags :
    (∀ ctx fuel fp reg de isSub n ds, extract_from_fp ctx fuel fp reg de isSub = .ok (n, ds) →
       n.isFnc = true ∧ n.isSub = isSub) ∧
    (∀ ctx fuel de fns reg1 nets,
       processFunctions ctx fuel de fns (seedRegistry fns) [] = .ok (reg1, nets) →
       ∀ k nn, dlookup k reg1 = some (RegEntry.net nn) → nn.isFnc = true ∧ nn.isSub = true) ∧
    (∀ ctx fuel model de net deeps, extract_networks ctx fuel model de = .ok (net, deeps) →
       ∀ d ∈ deeps, d.isSub = true) := by
  refine ⟨?_, ?_, ?_⟩
  · intro ctx fuel fp reg de isSub n ds h
    obtain ⟨⟨_, hsub, hfnc⟩, _⟩ := (extractInvariant ctx fuel).2.1 _ _ _ _ _ _ h
    exact ⟨hfnc, hsub⟩
  · intro ctx fuel de fns reg1 nets h k nn hk
    obtain ⟨hreg, _⟩ := processFunctions_good ctx fuel de _ _ _ _ _ h
      (fun k nn hk => (seedRegistry_no_net fns k nn hk).elim)
      (fun n hn => absurd hn (List.not_mem_nil n))
    obtain ⟨_, hsub, hfnc⟩ := hreg k nn hk
    exact ⟨hfnc, hsub⟩
  · intro ctx fuel model de net deeps h d hd
    rw [extract_networks_def] at h
    split at h
    · exact Except.noConfusion h
    · rename_i reg deeps1 hpf
      split at h
      · exact Except.noConfusion h
      · rename_i net0 gdeeps hgp
        injection h with h
        rw [Prod.mk.injEq] at h
        obtain ⟨h1, h2⟩ := h
        subst h1
        subst h2
        obtain ⟨_, hgds⟩ := (extractInvariant ctx fuel).1 _ _ _ _ _ _ hgp
        obtain ⟨_, hnets⟩ := processFunctions_good ctx fuel de _ _ _ _ _ hpf
          (fun k nn hk => (seedRegistry_no_net model.functions k nn hk).elim)
          (fun n hn => absurd hn (List.not_mem_nil n))
        rcases List.mem_append.mp hd with hd | hd
        · exact (hnets d hd).2
        · exact (hgds d hd).2.1

/-- Witness for C6: the amended theorem applied to the concrete
one-function model. -/
theorem C6_function_body_flags_witness :
    extract_networks ctxTriv 6 modelC6 false = .ok (netTriv, [c6fnNet]) ∧
    (∀ d ∈ [c6fnNet], d.isSub = true) :=
  ⟨rfl, C6_function_body_flags.2.2 ctxTriv 6 modelC6 false netTriv [c6fnNet] rfl⟩

theorem processFunctions_append (ctx : Ctx) (fuel : Nat) (de : Bool) :
    ∀ (pre post : List FunctionProto) (reg : Registry) (acc : List Network),
    processFunctions ctx fuel de (pre ++ post) reg acc =
      (match processFunctions ctx fuel de pre reg acc with
       | .error e => .error e
       | .ok (reg1, acc1) => processFunctions ctx fuel de post reg1 acc1) := by
  intro pre
  induction pre with
  | nil => intro post reg acc; rfl
  | cons fn rest ih =>
    intro post reg acc
    rw [List.cons_append, processFunctions_cons, processFunctions_cons]
    cases hk : dlookup (fn.name, fn.domain) reg with
    | none => rfl
    | some entry =>
      cases entry with
      | fn f =>
        cases hx : extract_from_fp ctx fuel fn reg de true with
        | error e => rfl
        | ok pr =>
          obtain ⟨net, ds⟩ := pr
          exact ih post _ _
      | net net => exact ih post _ _

theorem processFunctions_error_persist (ctx : Ctx) (fuel : Nat) (de : Bool) :
    ∀ (fns : List FunctionProto) (reg : Registry) (acc : List Network)
      (e : ExtractError) (regF : Registry),
    processFunctions ctx fuel de fns reg acc = .error (e, regF) →
    ∀ k n, dlookup k reg = some (RegEntry.net n) → dlookup k regF = some (RegEntry.net n) := by
  intro fns
  induction fns with
  | nil =>
    intro reg acc e regF h
    rw [processFunctions_nil] at h
    exact Except.noConfusion h
  | cons fn rest ih =>
    intro reg acc e regF h k n hk
    rw [processFunctions_cons] at h
    split at h
    · injection h with h
      rw [Prod.mk.injEq] at h
      obtain ⟨h1, h2⟩ := h
      subst h2
      exact hk
    · rename_i f hf
      split at h
      · injection h with h
        rw [Prod.mk.injEq] at h
        obtain ⟨h1, h2⟩ := h
        subst h2
        exact hk
      · rename_i net ds hx
        refine ih _ _ _ _ h k n ?_
        by_cases hkey : (fn.name, fn.domain) = k
        · exfalso
          rw [← hkey] at hk
          rw [hf] at hk
          injection hk with hk
          exact RegEntry.noConfusion hk
        · rw [dlookup_dinsert_ne _ _ hkey]
          exact hk
    · exact ih _ _ _ _ h k n hk

theorem processFunctions_ok_persist (ctx : Ctx) (fuel : Nat) (de : Bool) :
    ∀ (fns : List FunctionProto) (reg : Registry) (acc : List Network)
      (reg1 : Registry) (nets : List Network),
    processFunctions ctx fuel de fns reg acc = .ok (reg1, nets) →
    ∀ k n, dlookup k reg = some (RegEntry.net n) → dlookup k reg1 = some (RegEntry.net n) := by
  intro fns
  induction fns with
  | nil =>
    intro reg acc reg1 nets h
    rw [processFunctions_nil] at h
    injection h with h
    rw [Prod.mk.injEq] at h
    obtain ⟨h1, h2⟩ := h
    subst h1
    intro k n hk
    exact hk
  | cons fn rest ih =>
    intro reg acc reg1 nets h k n hk
    rw [processFunctions_cons] at h
    split at h
    · exact Except.noConfusion h
    · rename_i f hf
      split at h
      · exact Except.noConfusion h
      · rename_i net ds hx
        refine ih _ _ _ _ h k n ?_
        by_cases hkey : (fn.name, fn.domain) = k
        · exfalso
          rw [← hkey] at hk
          rw [hf] at hk
          injection hk with hk
          exact RegEntry.noConfusion hk
        · rw [dlookup_dinsert_ne _ _ hkey]
          exact hk
    · exact ih _ _ _ _ h k n hk

/-- C9: when a call of extract_networks fails with the cyclic-graph
error, every function-registry entry already resolved to a Network
before the failure is still present, unchanged, in the registry at the
moment of failure: the failure aborts the level without rolling back
resolved entries; a failure in the main graph leaves the fully resolved
registry untouched. -/
theorem C9_registry_preserved :
    (∀ ctx fuel de pre post reg acc reg1 acc1 regF,
       processFunctions ctx fuel de pre reg acc = .ok (reg1, acc1) →
       processFunctions ctx fuel de (pre ++ post) reg acc = .error (.cyclicGraph, regF) →
       ∀ k n, dlookup k reg1 = some (RegEntry.net n) → dlookup k regF = some (RegEntry.net n)) ∧
    (∀ ctx fuel model de reg deeps regF,
       processFunctions ctx fuel de model.functions (seedRegistry model.functions) [] = .ok (reg, deeps) →
       extract_networks ctx fuel model de = .error (.cyclicGraph, regF) →
       regF = reg) := by
  constructor
  · intro ctx fuel de pre post reg acc reg1 acc1 regF hpre h
    rw [processFunctions_append, hpre] at h
    exact processFunctions_error_persist ctx fuel de post reg1 acc1 _ _ h
  · intro ctx fuel model de reg deeps regF hpf h
    rw [extract_networks_def, hpf] at h
    replace h : (match extract_from_gp ctx fuel model.graph reg de false with
        | .error e => (Except.error (e, reg) : Except (ExtractError × Registry) (Network × List Network))
        | .ok (net, gdeeps) => .ok (net, deeps ++ gdeeps)) = .error (.cyclicGraph, regF) := h
    split at h
    · injection h with h
      rw [Prod.mk.injEq] at h
      exact h.2.symm
    · exact Except.noConfusion h

/-- Witness for C9: function F resolves, function G fails the DAG check,
and F stays resolved in the registry returned with the error. -/
theorem C9_registry_preserved_witness :
    processFunctions ctxTriv 6 false [fnF] (seedRegistry [fnF, fnG]) [] = .ok (regC9, [c6fnNet]) ∧
    processFunctions ctxTriv 6 false ([fnF] ++ [fnG]) (seedRegistry [fnF, fnG]) [] = .error (.cyclicGraph, regC9) ∧
    dlookup ("F", "d") regC9 = some (RegEntry.net c6fnNet) :=
  ⟨rfl, rfl,
    C9_registry_preserved.1 ctxTriv 6 false [fnF] [fnG] (seedRegistry [fnF, fnG]) []
      regC9 [c6fnNet] regC9 rfl rfl ("F", "d") c6fnNet rfl⟩

/-! Claim C3: memoization of function extraction. -/

theorem resolveEachOnce_cons (ctx : Ctx) (fuel : Nat) (de : Bool) (fn : FunctionProto)
    (rest : List FunctionProto) (reg : Registry) (acc : List Network) :
    resolveEachOnce ctx fuel de (fn :: rest) reg acc =
      (match extract_from_fp ctx fuel fn reg de true with
       | .error e => .error (e, reg)
       | .ok (net, ds) =>
           resolveEachOnce ctx fuel de rest
             (dinsert (fn.name, fn.domain) (RegEntry.net net) reg) (acc ++ net :: ds)) := rfl

theorem dlookup_foldl_seed_not_mem :
    ∀ (fns : List FunctionProto) (r : Registry) (k : String × String),
    k ∉ fns.map (fun f => (f.name, f.domain)) →
    dlookup k (fns.foldl (fun r f => dinsert (f.name, f.domain) (RegEntry.fn f) r) r) = dlookup k r := by
  intro fns
  induction fns with
  | nil => intro r k h; rfl
  | cons f rest ih =>
    intro r k h
    rw [List.map_cons, List.mem_cons] at h
    push_neg at h
    obtain ⟨h1, h2⟩ := h
    rw [List.foldl_cons, ih _ _ h2, dlookup_dinsert_ne _ _ (fun hh => h1 hh.symm)]

theorem seed_lookup :
    ∀ (fns : List FunctionProto) (r : Registry),
    ((fns.map (fun f => (f.name, f.domain))).Nodup) →
    ∀ fn ∈ fns,
    dlookup (fn.name, fn.domain) (fns.foldl (fun r f => dinsert (f.name, f.domain) (RegEntry.fn f) r) r) = some (RegEntry.fn fn) := by
  intro fns
  induction fns with
  | nil => intro r h fn hfn; cases hfn
  | cons f rest ih =>
    intro r h fn hfn
    rw [List.map_cons, List.nodup_cons] at h
    obtain ⟨hhead, htail⟩ := h
    rw [List.foldl_cons]
    rcases List.mem_cons.mp hfn with hfn | hfn
    · subst hfn
      rw [dlookup_foldl_seed_not_mem _ _ _ hhead, dlookup_dinsert_self]
    · exact ih _ htail fn hfn

theorem processFunctions_eq_resolveEachOnce (ctx : Ctx) (fuel : Nat) (de : Bool) :
    ∀ (fns : List FunctionProto) (reg : Registry) (acc : List Network),
    (∀ fn ∈ fns, dlookup (fn.name, fn.domain) reg = some (RegEntry.fn fn)) →
    ((fns.map (fun f => (f.name, f.domain))).Nodup) →
    processFunctions ctx fuel de fns reg acc = resolveEachOnce ctx fuel de fns reg acc := by
  intro fns
  induction fns with
  | nil => intro reg acc hreg hnodup; rfl
  | cons fn rest ih =>
    intro reg acc hreg hnodup
    rw [List.map_cons, List.nodup_cons] at hnodup
    obtain ⟨hhead, htail⟩ := hnodup
    rw [processFunctions_cons, resolveEachOnce_cons, hreg fn (List.mem_cons_self fn rest)]
    show (match extract_from_fp ctx fuel fn reg de true with
       | .error e => (Except.error (e, reg) : Except (ExtractError × Registry) (Registry × List Network))
       | .ok (net, ds) =>
           processFunctions ctx fuel de rest
             (dinsert (fn.name, fn.domain) (RegEntry.net net) reg) (acc ++ net :: ds)) = _
    cases hx : extract_from_fp ctx fuel fn reg de true with
    | error e => rfl
    | ok pr =>
      obtain ⟨net, ds⟩ := pr
      refine ih _ _ ?_ htail
      intro g hg
      have hne : (fn.name, fn.domain) ≠ (g.name, g.domain) := by
        intro hh
        exact hhead (by rw [hh]; exact List.mem_map_of_mem _ hg)
      rw [dlookup_dinsert_ne _ _ hne]
      exact hreg g (List.mem_cons_of_mem _ hg)

theorem processFunctions_resolves_all (ctx : Ctx) (fuel : Nat) (de : Bool) :
    ∀ (fns : List FunctionProto) (reg : Registry) (acc : List Network)
      (reg1 : Registry) (nets : List Network),
    (∀ fn ∈ fns, dlookup (fn.name, fn.domain) reg = some (RegEntry.fn fn)) →
    ((fns.map (fun f => (f.name, f.domain))).Nodup) →
    processFunctions ctx fuel de fns reg acc = .ok (reg1, nets) →
    ∀ fn ∈ fns, ∃ n, dlookup (fn.name, fn.domain) reg1 = some (RegEntry.net n) := by
  intro fns
  induction fns with
  | nil => intro reg acc reg1 nets hreg hnodup h fn hfn; cases hfn
  | cons fn rest ih =>
    intro reg acc reg1 nets hreg hnodup h g hg
    rw [List.map_cons, List.nodup_cons] at hnodup
    obtain ⟨hhead, htail⟩ := hnodup
    rw [processFunctions_cons, hreg fn (List.mem_cons_self fn rest)] at h
    replace h : (match extract_from_fp ctx fuel fn reg de true with
       | .error e => (Except.error (e, reg) : Except (ExtractError × Registry) (Registry × List Network))
       | .ok (net, ds) =>
           processFunctions ctx fuel de rest
             (dinsert (fn.name, fn.domain) (RegEntry.net net) reg) (acc ++ net :: ds)) = .ok (reg1, nets) := h
    split at h
    · exact Except.noConfusion h
    · rename_i net ds hx
      rcases List.mem_cons.mp hg with hgf | hgr
      · subst hgf
        refine ⟨net, ?_⟩
        exact processFunctions_ok_persist ctx fuel de rest _ _ _ _ h _ _ (dlookup_dinsert_self _ _ _)
      · refine ih _ _ _ _ ?_ htail h g hgr
        intro g1 hg1
        have hne : (fn.name, fn.domain) ≠ (g1.name, g1.domain) := by
          intro hh
          exact hhead (by rw [hh]; exact List.mem_map_of_mem _ hg1)
        rw [dlookup_dinsert_ne _ _ hne]
        exact hreg g1 (List.mem_cons_of_mem _ hg1)

/-- C3: within one top-level extract_networks call with pairwise
distinct function keys, the eager resolution loop is exactly the
extract-each-function-once procedure (so a function shared by several
call sites is extracted at most once and contributes exactly one entry
to the returned list), and on success every function key ends up
resolved to a Network in the registry, which every later reference
reads. -/
theorem C3_memoization :
    ∀ (ctx : Ctx) (fuel : Nat) (model : ModelProto) (de : Bool),
    ((model.functions.map (fun f => (f.name, f.domain))).Nodup) →
    processFunctions ctx fuel de model.functions (seedRegistry model.functions) [] =
      resolveEachOnce ctx fuel de model.functions (seedRegistry model.functions) [] ∧
    (∀ reg1 nets,
       processFunctions ctx fuel de model.functions (seedRegistry model.functions) [] = .ok (reg1, nets) →
       ∀ fn ∈ model.functions, ∃ n, dlookup (fn.name, fn.domain) reg1 = some (RegEntry.net n)) := by
  intro ctx fuel model de hnodup
  have hseed : ∀ fn ∈ model.functions,
      dlookup (fn.name, fn.domain) (seedRegistry model.functions) = some (RegEntry.fn fn) :=
    fun fn hfn => seed_lookup model.functions [] hnodup fn hfn
  constructor
  · exact processFunctions_eq_resolveEachOnce ctx fuel de model.functions _ [] hseed hnodup
  · intro reg1 nets h
    exact processFunctions_resolves_all ctx fuel de model.functions _ [] reg1 nets hseed hnodup h

/-- Witness for C3 at a concrete two-function model. -/
theorem C3_memoization_witness :
    (([fnF, fnG].map (fun f => (f.name, f.domain))).Nodup) ∧
    processFunctions ctxTriv 6 false [fnF, fnG] (seedRegistry [fnF, fnG]) [] =
      resolveEachOnce ctxTriv 6 false [fnF, fnG] (seedRegistry [fnF, fnG]) [] :=
  ⟨by decide,
    (C3_memoization ctxTriv 6 ⟨GraphProto.mk [] [] [] [] [], [fnF, fnG]⟩ false (by decide)).1⟩

/-! Localization of one node inside the graph-level node loop. -/

theorem attrsLoop_deeps_mono (ctx : Ctx) : ∀ (fuel : Nat) (reg : Registry) (de : Bool)
    (attrs : List AttributeProto) (amap : List (String × AttrValue)) (deeps : List Network)
    (amap1 : List (String × AttrValue)) (deeps1 : List Network),
    attrsLoop ctx fuel reg de attrs amap deeps = .ok (amap1, deeps1) →
    ∃ ex, deeps1 = deeps ++ ex := by
  intro fuel
  induction fuel with
  | zero =>
    intro reg de attrs amap deeps amap1 deeps1 h
    rw [attrsLoop_zero] at h
    exact Except.noConfusion h
  | succ fuel ih =>
    intro reg de attrs amap deeps amap1 deeps1 h
    cases attrs with
    | nil =>
      rw [attrsLoop_succ_nil] at h
      injection h with h
      rw [Prod.mk.injEq] at h
      obtain ⟨h1, h2⟩ := h
      subst h2
      exact ⟨[], by simp⟩
    | cons a rest =>
      rw [attrsLoop_succ_cons] at h
      by_cases hk : a.kind = AttrKind.graph ∨ a.kind = AttrKind.graphs
      · rw [if_pos hk] at h
        by_cases hc1 : de = true ∧ a.kind = AttrKind.graph
        · rw [if_pos hc1] at h
          cases hx : extract_from_gp ctx fuel a.g reg de true with
          | error e => rw [hx] at h; exact Except.noConfusion h
          | ok pr =>
            obtain ⟨n1, ds1⟩ := pr
            rw [hx] at h
            have hc2 : ¬(de = true ∧ a.kind = AttrKind.graphs) := by
              rintro ⟨_, hg⟩
              rw [hc1.2] at hg
              exact AttrKind.noConfusion hg
            rw [if_neg hc2] at h
            have h2 : attrsLoop ctx fuel reg de rest
                (dinsert a.name (AttrValue.ids (([n1] ++ []).map Network.identifier)) amap)
                (deeps ++ ([n1] ++ []) ++ (ds1 ++ [])) = .ok (amap1, deeps1) := h
            obtain ⟨ex, hex⟩ := ih _ _ _ _ _ _ _ h2
            exact ⟨([n1] ++ []) ++ (ds1 ++ []) ++ ex, by simp [hex]⟩
        · rw [if_neg hc1] at h
          by_cases hc2 : de = true ∧ a.kind = AttrKind.graphs
          · rw [if_pos hc2] at h
            cases hx : graphsLoop ctx fuel reg de a.graphs [] [] with
            | error e => rw [hx] at h; exact Except.noConfusion h
            | ok pr =>
              obtain ⟨es, dss⟩ := pr
              rw [hx] at h
              have h2 : attrsLoop ctx fuel reg de rest
                  (dinsert a.name (AttrValue.ids (([] ++ es).map Network.identifier)) amap)
                  (deeps ++ ([] ++ es) ++ ([] ++ dss)) = .ok (amap1, deeps1) := h
              obtain ⟨ex, hex⟩ := ih _ _ _ _ _ _ _ h2
              exact ⟨([] ++ es) ++ ([] ++ dss) ++ ex, by simp [hex]⟩
          · rw [if_neg hc2] at h
            have h2 : attrsLoop ctx fuel reg de rest
                (dinsert a.name (AttrValue.ids (([] ++ []).map Network.identifier)) amap)
                (deeps ++ ([] ++ []) ++ ([] ++ [])) = .ok (amap1, deeps1) := h
            obtain ⟨ex, hex⟩ := ih _ _ _ _ _ _ _ h2
            exact ⟨ex, by simpa using hex⟩
      · rw [if_neg hk] at h
        exact ih _ _ _ _ _ _ _ h

theorem processGpNode_shape (ctx : Ctx) (fuel : Nat) (pm : List (String × PmInfo))
    (io : List (String × String)) (reg : Registry) (de : Bool) (nid : Nat)
    (node : NodeProto) (st st1 : LoopState)
    (h : processGpNode ctx fuel pm io reg de nid node st = .ok st1) :
    (∃ nn, st1.nnNodes = dinsert nid nn st.nnNodes) ∧ (∃ ex, st1.deeps = st.deeps ++ ex) := by
  cases fuel with
  | zero => rw [processGpNode_zero] at h; exact Except.noConfusion h
  | succ fuel =>
    rw [processGpNode_succ] at h
    split at h
    · split at h
      · exact Except.noConfusion h
      · rename_i op hop
        split at h
        · exact Except.noConfusion h
        · rename_i attrs deeps1 hat
          split at h
          · exact Except.noConfusion h
          · rename_i params hpar
            split at h
            · exact Except.noConfusion h
            · rename_i i2x1 operands hs1
              split at h
              · exact Except.noConfusion h
              · rename_i o2x1 results hs2
                injection h with h
                subst h
                obtain ⟨ex, hex⟩ := attrsLoop_deeps_mono ctx fuel _ _ _ _ _ _ _ hat
                exact ⟨⟨_, rfl⟩, ⟨ex, hex⟩⟩
    · split at h
      · exact Except.noConfusion h
      · injection h with h
        subst h
        exact ⟨⟨_, rfl⟩, ⟨[], by simp⟩⟩

theorem processGpNodes_frame (ctx : Ctx) : ∀ (fuel : Nat) (pm : List (String × PmInfo))
    (io : List (String × String)) (reg : Registry) (de : Bool) (nid : Nat)
    (nodes : List NodeProto) (st st1 : LoopState),
    processGpNodes ctx fuel pm io reg de nid nodes st = .ok st1 →
    (∀ k, k < nid → dlookup k st1.nnNodes = dlookup k st.nnNodes) ∧
    (∃ ex, st1.deeps = st.deeps ++ ex) := by
  intro fuel
  induction fuel with
  | zero =>
    intro pm io reg de nid nodes st st1 h
    rw [processGpNodes_zero] at h
    exact Except.noConfusion h
  | succ fuel ih =>
    intro pm io reg de nid nodes st st1 h
    cases nodes with
    | nil =>
      rw [processGpNodes_succ_nil] at h
      injection h with h
      subst h
      exact ⟨fun k _ => rfl, ⟨[], by simp⟩⟩
    | cons node rest =>
      rw [processGpNodes_succ_cons] at h
      split at h
      · exact Except.noConfusion h
      · rename_i stm hstep
        obtain ⟨⟨nn, hnn⟩, ⟨ex1, hex1⟩⟩ := processGpNode_shape ctx fuel _ _ _ _ _ _ _ _ hstep
        obtain ⟨hframe, ⟨ex2, hex2⟩⟩ := ih _ _ _ _ _ _ _ _ h
        constructor
        · intro k hk
          have hne : nid ≠ k := by
            intro hh
            rw [hh] at hk
            exact Nat.lt_irrefl k hk
          rw [hframe k (Nat.lt_succ_of_lt hk), hnn, dlookup_dinsert_ne _ _ hne]
        · exact ⟨ex1 ++ ex2, by rw [hex2, hex1, List.append_assoc]⟩

theorem processGpNodes_locate (ctx : Ctx) : ∀ (fuel : Nat) (pm : List (String × PmInfo))
    (io : List (String × String)) (reg : Registry) (de : Bool) (nid : Nat)
    (nodes : List NodeProto) (st stF : LoopState),
    processGpNodes ctx fuel pm io reg de nid nodes st = .ok stF →
    ∀ i node, nodes.get? i = some node →
    ∃ f2 stA stB, processGpNode ctx f2 pm io reg de (nid + i) node stA = .ok stB ∧
      dlookup (nid + i) stF.nnNodes = dlookup (nid + i) stB.nnNodes ∧
      ∃ ex, stF.deeps = stB.deeps ++ ex := by
  intro fuel
  induction fuel with
  | zero =>
    intro pm io reg de nid nodes st stF h
    rw [processGpNodes_zero] at h
    exact Except.noConfusion h
  | succ fuel ih =>
    intro pm io reg de nid nodes st stF h i node hget
    cases nodes with
    | nil => simp at hget
    | cons node0 rest =>
      rw [processGpNodes_succ_cons] at h
      split at h
      · exact Except.noConfusion h
      · rename_i stm hstep
        cases i with
        | zero =>
          rw [List.get?_cons_zero] at hget
          injection hget with hget
          subst hget
          obtain ⟨hframe, hdeeps⟩ := processGpNodes_frame ctx fuel _ _ _ _ _ _ _ _ h
          refine ⟨fuel, st, stm, ?_, ?_, ?_⟩
          · rw [Nat.add_zero]
            exact hstep
          · rw [Nat.add_zero]
            exact hframe nid (Nat.lt_succ_self nid)
          · exact hdeeps
        | succ i =>
          rw [List.get?_cons_succ] at hget
          obtain ⟨f2, stA, stB, hB, hlook, hex⟩ := ih _ _ _ _ _ _ _ _ h i node hget
          refine ⟨f2, stA, stB, ?_, ?_, hex⟩
          · rw [show nid + (i + 1) = nid + 1 + i by omega]
            exact hB
          · rw [show nid + (i + 1) = nid + 1 + i by omega]
            exact hlook

/-- Inversion of a successful extract_from_gp call. -/
theorem extract_from_gp_inv (ctx : Ctx) (fuel : Nat) (gp : GraphProto) (reg : Registry)
    (de isSub : Bool) (net : Network) (ds : List Network)
    (h : extract_from_gp ctx fuel gp reg de isSub = .ok (net, ds)) :
    ∃ fuel1 st, fuel = fuel1 + 1 ∧
      processGpNodes ctx fuel1 (pmInfoOf gp) (ioInfoOf gp) reg de 0 gp.node ⟨[], [], DiGraph.empty, [], 0, []⟩ = .ok st ∧
      net = ⟨edgesLoop st.i2x st.o2x gp.node st.g, st.nnNodes, st.nnSize, isSub, false⟩ ∧
      ds = st.deeps := by
  cases fuel with
  | zero => rw [extract_from_gp_zero] at h; exact Except.noConfusion h
  | succ fuel =>
    rw [extract_from_gp_succ] at h
    split at h
    · exact Except.noConfusion h
    · rename_i st heq
      split at h
      · rename_i hd
        injection h with h
        rw [Prod.mk.injEq] at h
        obtain ⟨h1, h2⟩ := h
        exact ⟨fuel, st, rfl, heq, h1.symm, h2.symm⟩
      · exact Except.noConfusion h

/-- Inversion of a successful built-in node normalization at graph
level. -/
theorem processGpNode_builtin_inv (ctx : Ctx) (fuel : Nat) (pm : List (String × PmInfo))
    (io : List (String × String)) (reg : Registry) (de : Bool) (nid : Nat)
    (node : NodeProto) (st st1 : LoopState)
    (hdom : node.domain ∈ ctx.operatorDomains)
    (h : processGpNode ctx fuel pm io reg de nid node st = .ok st1) :
    ∃ fuel1 op attrs params i2x1 operands o2x1 results, fuel = fuel1 + 1 ∧
      ctx.getSchema node.op_type node.domain = some op ∧
      attrsLoop ctx fuel1 reg de node.attribute [] st.deeps = .ok (attrs, st1.deeps) ∧
      gpParamsLoop op.inputs pm node.input 0 0 [] = .ok params ∧
      gpSlotLoop op.inputs io nid node.input 0 0 st.i2x [] = .ok (i2x1, operands) ∧
      gpSlotLoop op.outputs io nid node.output 0 0 st.o2x [] = .ok (o2x1, results) ∧
      st1.nnNodes = dinsert nid ⟨node.op_type, node.domain, attrs, params, operands, results⟩ st.nnNodes := by
  cases fuel with
  | zero => rw [processGpNode_zero] at h; exact Except.noConfusion h
  | succ fuel =>
    rw [processGpNode_succ, if_pos hdom] at h
    split at h
    · exact Except.noConfusion h
    · rename_i op hop
      split at h
      · exact Except.noConfusion h
      · rename_i attrs deeps1 hat
        split at h
        · exact Except.noConfusion h
        · rename_i params hpar
          split at h
          · exact Except.noConfusion h
          · rename_i i2x1 operands hs1
            split at h
            · exact Except.noConfusion h
            · rename_i o2x1 results hs2
              injection h with h
              subst h
              exact ⟨fuel, op, attrs, params, i2x1, operands, o2x1, results,
                rfl, hop, hat, hpar, hs1, hs2, rfl⟩

theorem attrsLoop_shallow_deeps (ctx : Ctx) : ∀ (fuel : Nat) (reg : Registry)
    (attrs : List AttributeProto) (amap : List (String × AttrValue)) (deeps : List Network)
    (amap1 : List (String × AttrValue)) (deeps1 : List Network),
    attrsLoop ctx fuel reg false attrs amap deeps = .ok (amap1, deeps1) → deeps1 = deeps := by
  intro fuel
  induction fuel with
  | zero =>
    intro reg attrs amap deeps amap1 deeps1 h
    rw [attrsLoop_zero] at h
    exact Except.noConfusion h
  | succ fuel ih =>
    intro reg attrs amap deeps amap1 deeps1 h
    cases attrs with
    | nil =>
      rw [attrsLoop_succ_nil] at h
      injection h with h
      rw [Prod.mk.injEq] at h
      exact h.2.symm
    | cons a rest =>
      rw [attrsLoop_succ_cons] at h
      by_cases hk : a.kind = AttrKind.graph ∨ a.kind = AttrKind.graphs
      · rw [if_pos hk] at h
        have hc1 : ¬(false = true ∧ a.kind = AttrKind.graph) := by
          rintro ⟨hh, _⟩
          exact Bool.noConfusion hh
        have hc2 : ¬(false = true ∧ a.kind = AttrKind.graphs) := by
          rintro ⟨hh, _⟩
          exact Bool.noConfusion hh
        rw [if_neg hc1, if_neg hc2] at h
        have h2 : attrsLoop ctx fuel reg false rest
            (dinsert a.name (AttrValue.ids (([] ++ []).map Network.identifier)) amap)
            (deeps ++ ([] ++ []) ++ ([] ++ [])) = .ok (amap1, deeps1) := h
        have := ih _ _ _ _ _ _ h2
        simpa using this
      · rw [if_neg hk] at h
        exact ih _ _ _ _ _ _ h

theorem processGpNode_shallow_deeps (ctx : Ctx) (fuel : Nat) (pm : List (String × PmInfo))
    (io : List (String × String)) (reg : Registry) (nid : Nat) (node : NodeProto)
    (st st1 : LoopState)
    (h : processGpNode ctx fuel pm io reg false nid node st = .ok st1) :
    st1.deeps = st.deeps := by
  cases fuel with
  | zero => rw [processGpNode_zero] at h; exact Except.noConfusion h
  | succ fuel =>
    rw [processGpNode_succ] at h
    split at h
    · split at h
      · exact Except.noConfusion h
      · rename_i op hop
        split at h
        · exact Except.noConfusion h
        · rename_i attrs deeps1 hat
          split at h
          · exact Except.noConfusion h
          · rename_i params hpar
            split at h
            · exact Except.noConfusion h
            · rename_i i2x1 operands hs1
              split at h
              · exact Except.noConfusion h
              · rename_i o2x1 results hs2
                injection h with h
                subst h
                exact attrsLoop_shallow_deeps ctx fuel _ _ _ _ _ _ hat
    · split at h
      · exact Except.noConfusion h
      · injection h with h
        subst h
        rfl

theorem processGpNodes_shallow_deeps (ctx : Ctx) : ∀ (fuel : Nat) (pm : List (String × PmInfo))
    (io : List (String × String)) (reg : Registry) (nid : Nat) (nodes : List NodeProto)
    (st st1 : LoopState),
    processGpNodes ctx fuel pm io reg false nid nodes st = .ok st1 →
    st1.deeps = st.deeps := by
  intro fuel
  induction fuel with
  | zero =>
    intro pm io reg nid nodes st st1 h
    rw [processGpNodes_zero] at h
    exact Except.noConfusion h
  | succ fuel ih =>
    intro pm io reg nid nodes st st1 h
    cases nodes with
    | nil =>
      rw [processGpNodes_succ_nil] at h
      injection h with h
      subst h
      rfl
    | cons node rest =>
      rw [processGpNodes_succ_cons] at h
      split at h
      · exact Except.noConfusion h
      · rename_i stm hstep
        rw [ih _ _ _ _ _ _ _ h, processGpNode_shallow_deeps ctx fuel _ _ _ _ _ _ _ hstep]

theorem attrsLoop_frame (ctx : Ctx) : ∀ (fuel : Nat) (reg : Registry) (de : Bool)
    (attrs : List AttributeProto) (amap : List (String × AttrValue)) (deeps : List Network)
    (amap1 : List (String × AttrValue)) (deeps1 : List Network) (name : String),
    attrsLoop ctx fuel reg de attrs amap deeps = .ok (amap1, deeps1) →
    name ∉ attrs.map AttributeProto.name →
    dlookup name amap1 = dlookup name amap := by
  intro fuel
  induction fuel with
  | zero =>
    intro reg de attrs amap deeps amap1 deeps1 name h
    rw [attrsLoop_zero] at h
    exact Except.noConfusion h
  | succ fuel ih =>
    intro reg de attrs amap deeps amap1 deeps1 name h hnotin
    cases attrs with
    | nil =>
      rw [attrsLoop_succ_nil] at h
      injection h with h
      rw [Prod.mk.injEq] at h
      obtain ⟨h1, h2⟩ := h
      subst h1
      rfl
    | cons a rest =>
      rw [List.map_cons, List.mem_cons] at hnotin
      push_neg at hnotin
      obtain ⟨hne, hnotin⟩ := hnotin
      have hinsne : a.name ≠ name := fun hh => hne hh.symm
      rw [attrsLoop_succ_cons] at h
      by_cases hk : a.kind = AttrKind.graph ∨ a.kind = AttrKind.graphs
      · rw [if_pos hk] at h
        by_cases hc1 : de = true ∧ a.kind = AttrKind.graph
        · rw [if_pos hc1] at h
          cases hx : extract_from_gp ctx fuel a.g reg de true with
          | error e => rw [hx] at h; exact Except.noConfusion h
          | ok pr =>
            obtain ⟨n1, ds1⟩ := pr
            rw [hx] at h
            have hc2 : ¬(de = true ∧ a.kind = AttrKind.graphs) := by
              rintro ⟨_, hg⟩
              rw [hc1.2] at hg
              exact AttrKind.noConfusion hg
            rw [if_neg hc2] at h
            have h2 : attrsLoop ctx fuel reg de rest
                (dinsert a.name (AttrValue.ids (([n1] ++ []).map Network.identifier)) amap)
                (deeps ++ ([n1] ++ []) ++ (ds1 ++ [])) = .ok (amap1, deeps1) := h
            rw [ih _ _ _ _ _ _ _ _ h2 hnotin, dlookup_dinsert_ne _ _ hinsne]
        · rw [if_neg hc1] at h
          by_cases hc2 : de = true ∧ a.kind = AttrKind.graphs
          · rw [if_pos hc2] at h
            cases hx : graphsLoop ctx fuel reg de a.graphs [] [] with
            | error e => rw [hx] at h; exact Except.noConfusion h
            | ok pr =>
              obtain ⟨es, dss⟩ := pr
              rw [hx] at h
              have h2 : attrsLoop ctx fuel reg de rest
                  (dinsert a.name (AttrValue.ids (([] ++ es).map Network.identifier)) amap)
                  (deeps ++ ([] ++ es) ++ ([] ++ dss)) = .ok (amap1, deeps1) := h
              rw [ih _ _ _ _ _ _ _ _ h2 hnotin, dlookup_dinsert_ne _ _ hinsne]
          · rw [if_neg hc2] at h
            have h2 : attrsLoop ctx fuel reg de rest
                (dinsert a.name (AttrValue.ids (([] ++ []).map Network.identifier)) amap)
                (deeps ++ ([] ++ []) ++ ([] ++ [])) = .ok (amap1, deeps1) := h
            rw [ih _ _ _ _ _ _ _ _ h2 hnotin, dlookup_dinsert_ne _ _ hinsne]
      · rw [if_neg hk] at h
        rw [ih _ _ _ _ _ _ _ _ h hnotin, dlookup_dinsert_ne _ _ hinsne]

theorem attrsLoop_shallow_lookup (ctx : Ctx) : ∀ (fuel : Nat) (reg : Registry)
    (attrs : List AttributeProto) (amap : List (String × AttrValue)) (deeps : List Network)
    (amap1 : List (String × AttrValue)) (deeps1 : List Network),
    attrsLoop ctx fuel reg false attrs amap deeps = .ok (amap1, deeps1) →
    ((attrs.map AttributeProto.name).Nodup) →
    ∀ a ∈ attrs, (a.kind = AttrKind.graph ∨ a.kind = AttrKind.graphs) →
    dlookup a.name amap1 = some (AttrValue.ids []) := by
  intro fuel
  induction fuel with
  | zero =>
    intro reg attrs amap deeps amap1 deeps1 h
    rw [attrsLoop_zero] at h
    exact Except.noConfusion h
  | succ fuel ih =>
    intro reg attrs amap deeps amap1 deeps1 h hnodup a ha hak
    cases attrs with
    | nil => cases ha
    | cons a0 rest =>
      rw [List.map_cons, List.nodup_cons] at hnodup
      obtain ⟨hhead, htail⟩ := hnodup
      rw [attrsLoop_succ_cons] at h
      rcases List.mem_cons.mp ha with ha | ha
      · subst ha
        rw [if_pos hak] at h
        have hc1 : ¬(false = true ∧ a.kind = AttrKind.graph) := by
          rintro ⟨hh, _⟩
          exact Bool.noConfusion hh
        have hc2 : ¬(false = true ∧ a.kind = AttrKind.graphs) := by
          rintro ⟨hh, _⟩
          exact Bool.noConfusion hh
        rw [if_neg hc1, if_neg hc2] at h
        have h2 : attrsLoop ctx fuel reg false rest
            (dinsert a.name (AttrValue.ids (([] ++ []).map Network.identifier)) amap)
            (deeps ++ ([] ++ []) ++ ([] ++ [])) = .ok (amap1, deeps1) := h
        rw [attrsLoop_frame ctx fuel _ _ _ _ _ _ _ _ h2 hhead]
        exact dlookup_dinsert_self _ _ _
      · by_cases hk0 : a0.kind = AttrKind.graph ∨ a0.kind = AttrKind.graphs
        · rw [if_pos hk0] at h
          have hc1 : ¬(false = true ∧ a0.kind = AttrKind.graph) := by
            rintro ⟨hh, _⟩
            exact Bool.noConfusion hh
          have hc2 : ¬(false = true ∧ a0.kind = AttrKind.graphs) := by
            rintro ⟨hh, _⟩
            exact Bool.noConfusion hh
          rw [if_neg hc1, if_neg hc2] at h
          have h2 : attrsLoop ctx fuel reg false rest
              (dinsert a0.name (AttrValue.ids (([] ++ []).map Network.identifier)) amap)
              (deeps ++ ([] ++ []) ++ ([] ++ [])) = .ok (amap1, deeps1) := h
          exact ih _ _ _ _ _ _ h2 htail a ha hak
        · rw [if_neg hk0] at h
          exact ih _ _ _ _ _ _ h htail a ha hak

theorem attrsLoop_deep_graph (ctx : Ctx) : ∀ (fuel : Nat) (reg : Registry)
    (attrs : List AttributeProto) (amap : List (String × AttrValue)) (deeps : List Network)
    (amap1 : List (String × AttrValue)) (deeps1 : List Network),
    attrsLoop ctx fuel reg true attrs amap deeps = .ok (amap1, deeps1) →
    ((attrs.map AttributeProto.name).Nodup) →
    ∀ a ∈ attrs, a.kind = AttrKind.graph →
    ∃ f2 sub ds2, extract_from_gp ctx f2 a.g reg true true = .ok (sub, ds2) ∧
      dlookup a.name amap1 = some (AttrValue.ids [sub.identifier]) ∧ sub ∈ deeps1 := by
  intro fuel
  induction fuel with
  | zero =>
    intro reg attrs amap deeps amap1 deeps1 h
    rw [attrsLoop_zero] at h
    exact Except.noConfusion h
  | succ fuel ih =>
    intro reg attrs amap deeps amap1 deeps1 h hnodup a ha hak
    cases attrs with
    | nil => cases ha
    | cons a0 rest =>
      rw [List.map_cons, List.nodup_cons] at hnodup
      obtain ⟨hhead, htail⟩ := hnodup
      rw [attrsLoop_succ_cons] at h
      rcases List.mem_cons.mp ha with ha | ha
      · subst ha
        rw [if_pos (Or.inl hak)] at h
        rw [if_pos ⟨rfl, hak⟩] at h
        cases hx : extract_from_gp ctx fuel a.g reg true true with
        | error e => rw [hx] at h; exact Except.noConfusion h
        | ok pr =>
          obtain ⟨n1, ds1⟩ := pr
          rw [hx] at h
          have hc2 : ¬(true = true ∧ a.kind = AttrKind.graphs) := by
            rintro ⟨_, hg⟩
            rw [hak] at hg
            exact AttrKind.noConfusion hg
          rw [if_neg hc2] at h
          have h2 : attrsLoop ctx fuel reg true rest
              (dinsert a.name (AttrValue.ids (([n1] ++ []).map Network.identifier)) amap)
              (deeps ++ ([n1] ++ []) ++ (ds1 ++ [])) = .ok (amap1, deeps1) := h
          refine ⟨fuel, n1, ds1, hx, ?_, ?_⟩
          · rw [attrsLoop_frame ctx fuel _ _ _ _ _ _ _ _ h2 hhead]
            exact dlookup_dinsert_self _ _ _
          · obtain ⟨ex, hex⟩ := attrsLoop_deeps_mono ctx fuel _ _ _ _ _ _ _ h2
            rw [hex]
            refine List.mem_append.mpr (Or.inl ?_)
            refine List.mem_append.mpr (Or.inl ?_)
            refine List.mem_append.mpr (Or.inr ?_)
            simp
      · by_cases hk0 : a0.kind = AttrKind.graph ∨ a0.kind = AttrKind.graphs
        · rw [if_pos hk0] at h
          by_cases hc1 : (true : Bool) = true ∧ a0.kind = AttrKind.graph
          · rw [if_pos hc1] at h
            cases hx : extract_from_gp ctx fuel a0.g reg true true with
            | error e => rw [hx] at h; exact Except.noConfusion h
            | ok pr =>
              obtain ⟨n1, ds1⟩ := pr
              rw [hx] at h
              have hc2 : ¬((true : Bool) = true ∧ a0.kind = AttrKind.graphs) := by
                rintro ⟨_, hg⟩
                rw [hc1.2] at hg
                exact AttrKind.noConfusion hg
              rw [if_neg hc2] at h
              have h2 : attrsLoop ctx fuel reg true rest
                  (dinsert a0.name (AttrValue.ids (([n1] ++ []).map Network.identifier)) amap)
                  (deeps ++ ([n1] ++ []) ++ (ds1 ++ [])) = .ok (amap1, deeps1) := h
              exact ih _ _ _ _ _ _ h2 htail a ha hak
          · rw [if_neg hc1] at h
            by_cases hc2 : (true : Bool) = true ∧ a0.kind = AttrKind.graphs
            · rw [if_pos hc2] at h
              cases hx : graphsLoop ctx fuel reg true a0.graphs [] [] with
              | error e => rw [hx] at h; exact Except.noConfusion h
              | ok pr =>
                obtain ⟨es, dss⟩ := pr
                rw [hx] at h
                have h2 : attrsLoop ctx fuel reg true rest
                    (dinsert a0.name (AttrValue.ids (([] ++ es).map Network.identifier)) amap)
                    (deeps ++ ([] ++ es) ++ ([] ++ dss)) = .ok (amap1, deeps1) := h
                exact ih _ _ _ _ _ _ h2 htail a ha hak
            · rw [if_neg hc2] at h
              have h2 : attrsLoop ctx fuel reg true rest
                  (dinsert a0.name (AttrValue.ids (([] ++ []).map Network.identifier)) amap)
                  (deeps ++ ([] ++ []) ++ ([] ++ [])) = .ok (amap1, deeps1) := h
              exact ih _ _ _ _ _ _ h2 htail a ha hak
        · rw [if_neg hk0] at h
          exact ih _ _ _ _ _ _ h htail a ha hak

/-- C5: in shallow mode (deep_extract false) every graph-valued
attribute (GRAPH or GRAPHS) of a built-in node is materialized as an
empty list and the level discovers no sub networks at all; in deep mode
a GRAPH attribute (such as either branch of an If node) is extracted as
an additional Network marked is_sub true, the materialized attribute
value is the one-element list of its identifier, and that Network
appears in the deep-discovered list of the level. -/
theorem C5_shallow_deep_attributes :
    (∀ (ctx : Ctx) (fuel : Nat) (gp : GraphProto) (reg : Registry) (isSub : Bool)
       (net : Network) (ds : List Network),
       extract_from_gp ctx fuel gp reg false isSub = .ok (net, ds) →
       ds = [] ∧
       ∀ i node, gp.node.get? i = some node → node.domain ∈ ctx.operatorDomains →
         ((node.attribute.map AttributeProto.name).Nodup) →
         ∀ a ∈ node.attribute, (a.kind = AttrKind.graph ∨ a.kind = AttrKind.graphs) →
           ∃ nn, dlookup i net.nnNodes = some nn ∧
             dlookup a.name nn.attributes = some (AttrValue.ids [])) ∧
    (∀ (ctx : Ctx) (fuel : Nat) (gp : GraphProto) (reg : Registry) (isSub : Bool)
       (net : Network) (ds : List Network),
       extract_from_gp ctx fuel gp reg true isSub = .ok (net, ds) →
       ∀ i node, gp.node.get? i = some node → node.domain ∈ ctx.operatorDomains →
         ((node.attribute.map AttributeProto.name).Nodup) →
         ∀ a ∈ node.attribute, a.kind = AttrKind.graph →
           ∃ nn f2 sub ds2, dlookup i net.nnNodes = some nn ∧
             extract_from_gp ctx f2 a.g reg true true = .ok (sub, ds2) ∧
             dlookup a.name nn.attributes = some (AttrValue.ids [sub.identifier]) ∧
             sub.isSub = true ∧ sub ∈ ds) := by
  constructor
  · intro ctx fuel gp reg isSub net ds h
    obtain ⟨fuel1, st, hf, hnodes, hnet, hds⟩ := extract_from_gp_inv ctx fuel gp reg false isSub net ds h
    constructor
    · subst hds
      exact processGpNodes_shallow_deeps ctx fuel1 _ _ _ _ _ _ _ hnodes
    · intro i node hget hdom hnodup a ha hak
      obtain ⟨f2, stA, stB, hB, hlook, hex⟩ :=
        processGpNodes_locate ctx fuel1 _ _ _ _ _ _ _ _ hnodes i node hget
      rw [Nat.zero_add] at hB hlook
      obtain ⟨fuel3, op, attrs, params, i2x1, operands, o2x1, results,
        hf3, hop, hat, hpar, hs1, hs2, hnn⟩ :=
        processGpNode_builtin_inv ctx f2 _ _ _ _ _ _ _ _ hdom hB
      refine ⟨⟨node.op_type, node.domain, attrs, params, operands, results⟩, ?_, ?_⟩
      · rw [hnet]
        show dlookup i st.nnNodes = _
        rw [hlook, hnn]
        exact dlookup_dinsert_self _ _ _
      · subst hf3
        exact attrsLoop_shallow_lookup ctx fuel3 _ _ _ _ _ _ hat hnodup a ha hak
  · intro ctx fuel gp reg isSub net ds h i node hget hdom hnodup a ha hak
    obtain ⟨fuel1, st, hf, hnodes, hnet, hds⟩ := extract_from_gp_inv ctx fuel gp reg true isSub net ds h
    obtain ⟨f2, stA, stB, hB, hlook, ⟨ex, hex⟩⟩ :=
      processGpNodes_locate ctx fuel1 _ _ _ _ _ _ _ _ hnodes i node hget
    rw [Nat.zero_add] at hB hlook
    obtain ⟨fuel3, op, attrs, params, i2x1, operands, o2x1, results,
      hf3, hop, hat, hpar, hs1, hs2, hnn⟩ :=
      processGpNode_builtin_inv ctx f2 _ _ _ _ _ _ _ _ hdom hB
    subst hf3
    obtain ⟨f4, sub, ds2, hxsub, hlookattr, hmem⟩ :=
      attrsLoop_deep_graph ctx fuel3 _ _ _ _ _ _ hat hnodup a ha hak
    refine ⟨⟨node.op_type, node.domain, attrs, params, operands, results⟩,
      f4, sub, ds2, ?_, hxsub, hlookattr, ?_, ?_⟩
    · rw [hnet]
      show dlookup i st.nnNodes = _
      rw [hlook, hnn]
      exact dlookup_dinsert_self _ _ _
    · exact ((extractInvariant ctx f4).1 _ _ _ _ _ _ hxsub).1.2.1
    · rw [hds, hex]
      exact List.mem_append.mpr (Or.inl hmem)

/-- Witness for C5: a concrete If-style node with two graph attributes,
extracted shallow (empty lists, no deep networks) and deep (one sub
network per branch, is_sub true, identifier recorded). -/
theorem C5_shallow_deep_attributes_witness :
    extract_from_gp ctxIf 9 gpIf [] false false = .ok (netIfShallow, []) ∧
    extract_from_gp ctxIf 9 gpIf [] true false = .ok (netIfDeep, [subNetIf, subNetIf]) ∧
    (∃ nn, dlookup 0 netIfShallow.nnNodes = some nn ∧
       dlookup "then_branch" nn.attributes = some (AttrValue.ids [])) ∧
    (∃ nn f2 sub ds2, dlookup 0 netIfDeep.nnNodes = some nn ∧
       extract_from_gp ctxIf f2 (AttributeProto.mk "then_branch" AttrKind.graph subG [] "").g [] true true = .ok (sub, ds2) ∧
       dlookup "then_branch" nn.attributes = some (AttrValue.ids [sub.identifier]) ∧
       sub.isSub = true ∧ sub ∈ [subNetIf, subNetIf]) :=
  ⟨rfl, rfl,
    (C5_shallow_deep_attributes.1 ctxIf 9 gpIf [] false netIfShallow [] rfl).2 0 ifNode rfl
      (by decide) (by decide) (AttributeProto.mk "then_branch" AttrKind.graph subG [] "")
      (List.mem_cons_self _ _) (Or.inl rfl),
    C5_shallow_deep_attributes.2 ctxIf 9 gpIf [] false netIfDeep [subNetIf, subNetIf] rfl 0 ifNode rfl
      (by decide) (by decide) (AttributeProto.mk "then_branch" AttrKind.graph subG [] "")
      (List.mem_cons_self _ _) rfl⟩

theorem customLoop_nil (nid : Nat) (valueOf : String → Option String) (idx : Nat)
    (x2 : List (String × (Nat × String × Int))) (smap : List (String × String)) :
    customLoop nid valueOf [] idx x2 smap = (x2, smap) := rfl

theorem customLoop_cons (nid : Nat) (valueOf : String → Option String) (inp : String)
    (rest : List String) (idx : Nat) (x2 : List (String × (Nat × String × Int)))
    (smap : List (String × String)) :
    customLoop nid valueOf (inp :: rest) idx x2 smap =
      (match valueOf inp with
       | none => customLoop nid valueOf rest (idx + 1) x2 smap
       | some v => customLoop nid valueOf rest (idx + 1)
           (dinsert inp (nid, inp, (idx : Int)) x2) (dinsert inp v smap)) := rfl

theorem customLoop_smap_mem (nid : Nat) (valueOf : String → Option String) :
    ∀ (inputs : List String) (idx : Nat) (x2 : List (String × (Nat × String × Int)))
      (smap : List (String × String)) (k v : String),
    (k, v) ∈ (customLoop nid valueOf inputs idx x2 smap).2 →
    (k, v) ∈ smap ∨ (k ∈ inputs ∧ valueOf k = some v) := by
  intro inputs
  induction inputs with
  | nil =>
    intro idx x2 smap k v h
    rw [customLoop_nil] at h
    exact Or.inl h
  | cons inp rest ih =>
    intro idx x2 smap k v h
    rw [customLoop_cons] at h
    cases hv : valueOf inp with
    | none =>
      rw [hv] at h
      rcases ih _ _ _ _ _ h with h | ⟨h1, h2⟩
      · exact Or.inl h
      · exact Or.inr ⟨List.mem_cons_of_mem _ h1, h2⟩
    | some v0 =>
      rw [hv] at h
      rcases ih _ _ _ _ _ h with h | ⟨h1, h2⟩
      · rcases mem_dinsert h with ⟨hk, hvv⟩ | h
        · subst hk
          subst hvv
          exact Or.inr ⟨List.mem_cons_self _ _, hv⟩
        · exact Or.inl h
      · exact Or.inr ⟨List.mem_cons_of_mem _ h1, h2⟩

/-- A node whose domain is not a supported built-in domain and whose
(type, domain) is absent from the registry is normalized without any
error at graph level. -/
theorem processGpNode_custom_none (ctx : Ctx) (fuel : Nat) (pm : List (String × PmInfo))
    (io : List (String × String)) (reg : Registry) (de : Bool) (nid : Nat)
    (node : NodeProto) (st : LoopState)
    (hdom : node.domain ∉ ctx.operatorDomains)
    (hreg : dlookup (node.op_type, node.domain) reg = none) :
    processGpNode ctx (fuel + 1) pm io reg de nid node st =
      .ok ⟨(customLoop nid (fun inp => dlookup inp io) node.input 0 st.i2x []).1,
           (customLoop nid (fun inp => dlookup inp io) node.output 0 st.o2x []).1,
           st.g.addNode nid,
           dinsert nid ⟨node.op_type, node.domain, [], [],
             (customLoop nid (fun inp => dlookup inp io) node.input 0 st.i2x []).2,
             (customLoop nid (fun inp => dlookup inp io) node.output 0 st.o2x []).2⟩ st.nnNodes,
           st.nnSize + 1, st.deeps⟩ := by
  rw [processGpNode_succ, if_neg hdom, hreg]

/-- The same tolerance at function level. -/
theorem processFpNode_custom_none (ctx : Ctx) (fuel : Nat) (reg : Registry) (de : Bool)
    (nid : Nat) (node : NodeProto) (st : LoopState)
    (hdom : node.domain ∉ ctx.operatorDomains)
    (hreg : dlookup (node.op_type, node.domain) reg = none) :
    processFpNode ctx (fuel + 1) reg de nid node st =
      .ok ⟨(customLoop nid (fun inp => some inp) node.input 0 st.i2x []).1,
           (customLoop nid (fun inp => some inp) node.output 0 st.o2x []).1,
           st.g.addNode nid,
           dinsert nid ⟨node.op_type, node.domain, [], [],
             (customLoop nid (fun inp => some inp) node.input 0 st.i2x []).2,
             (customLoop nid (fun inp => some inp) node.output 0 st.o2x []).2⟩ st.nnNodes,
           st.nnSize + 1, st.deeps⟩ := by
  rw [processFpNode_succ, if_neg hdom, hreg]

/-- C10: a node with an unsupported operator domain whose (type, domain)
pair is absent from the function registry never makes extraction fail:
it is normalized into a node record with empty attributes, empty
parameters, and operand and result entries keyed by the raw value names
(at graph level with the visible annotation as value, at function level
with the raw name itself). -/
theorem C10_unknown_custom_ops :
    (∀ (ctx : Ctx) (fuel : Nat) (gp : GraphProto) (reg : Registry) (de isSub : Bool)
       (net : Network) (ds : List Network),
       extract_from_gp ctx fuel gp reg de isSub = .ok (net, ds) →
       ∀ i node, gp.node.get? i = some node →
         node.domain ∉ ctx.operatorDomains →
         dlookup (node.op_type, node.domain) reg = none →
         ∃ nn, dlookup i net.nnNodes = some nn ∧
           nn.attributes = [] ∧ nn.parameters = [] ∧
           (∀ kv ∈ nn.operands, kv.1 ∈ node.input ∧ dlookup kv.1 (ioInfoOf gp) = some kv.2) ∧
           (∀ kv ∈ nn.results, kv.1 ∈ node.output ∧ dlookup kv.1 (ioInfoOf gp) = some kv.2)) ∧
    (∀ (ctx : Ctx) (fuel : Nat) (pm : List (String × PmInfo)) (io : List (String × String))
       (reg : Registry) (de : Bool) (nid : Nat) (node : NodeProto) (st : LoopState),
       node.domain ∉ ctx.operatorDomains →
       dlookup (node.op_type, node.domain) reg = none →
       ∃ st1, processGpNode ctx (fuel + 1) pm io reg de nid node st = .ok st1) ∧
    (∀ (ctx : Ctx) (fuel : Nat) (reg : Registry) (de : Bool) (nid : Nat)
       (node : NodeProto) (st : LoopState),
       node.domain ∉ ctx.operatorDomains →
       dlookup (node.op_type, node.domain) reg = none →
       ∃ st1, processFpNode ctx (fuel + 1) reg de nid node st = .ok st1 ∧
         ∃ nn, st1.nnNodes = dinsert nid nn st.nnNodes ∧ nn.attributes = [] ∧ nn.parameters = [] ∧
           (∀ kv ∈ nn.operands, kv.1 ∈ node.input ∧ kv.2 = kv.1) ∧
           (∀ kv ∈ nn.results, kv.1 ∈ node.output ∧ kv.2 = kv.1)) := by
  refine ⟨?_, ?_, ?_⟩
  · intro ctx fuel gp reg de isSub net ds h i node hget hdom hregnone
    obtain ⟨fuel1, st, hf, hnodes, hnet, hds⟩ :=
      extract_from_gp_inv ctx fuel gp reg de isSub net ds h
    obtain ⟨f2, stA, stB, hB, hlook, hex⟩ :=
      processGpNodes_locate ctx fuel1 _ _ _ _ _ _ _ _ hnodes i node hget
    rw [Nat.zero_add] at hB hlook
    cases f2 with
    | zero =>
      rw [processGpNode_zero] at hB
      exact Except.noConfusion hB
    | succ f3 =>
      rw [processGpNode_custom_none ctx f3 _ _ _ _ _ _ _ hdom hregnone] at hB
      injection hB with hB
      refine ⟨⟨node.op_type, node.domain, [], [],
        (customLoop i (fun inp => dlookup inp (ioInfoOf gp)) node.input 0 stA.i2x []).2,
        (customLoop i (fun inp => dlookup inp (ioInfoOf gp)) node.output 0 stA.o2x []).2⟩,
        ?_, rfl, rfl, ?_, ?_⟩
      · rw [hnet]
        show dlookup i st.nnNodes = _
        rw [hlook, ← hB]
        exact dlookup_dinsert_self _ _ _
      · intro kv hkv
        rcases customLoop_smap_mem i _ node.input 0 stA.i2x [] kv.1 kv.2 hkv with hh | ⟨h1, h2⟩
        · cases hh
        · exact ⟨h1, h2⟩
      · intro kv hkv
        rcases customLoop_smap_mem i _ node.output 0 stA.o2x [] kv.1 kv.2 hkv with hh | ⟨h1, h2⟩
        · cases hh
        · exact ⟨h1, h2⟩
  · intro ctx fuel pm io reg de nid node st hdom hregnone
    exact ⟨_, processGpNode_custom_none ctx fuel pm io reg de nid node st hdom hregnone⟩
  · intro ctx fuel reg de nid node st hdom hregnone
    refine ⟨_, processFpNode_custom_none ctx fuel reg de nid node st hdom hregnone,
      _, rfl, rfl, rfl, ?_, ?_⟩
    · intro kv hkv
      rcases customLoop_smap_mem nid _ node.input 0 st.i2x [] kv.1 kv.2 hkv with hh | ⟨h1, h2⟩
      · cases hh
      · injection h2 with h2
        exact ⟨h1, h2.symm⟩
    · intro kv hkv
      rcases customLoop_smap_mem nid _ node.output 0 st.o2x [] kv.1 kv.2 hkv with hh | ⟨h1, h2⟩
      · cases hh
      · injection h2 with h2
        exact ⟨h1, h2.symm⟩

/-- Witness for C10 at a concrete single custom-op graph. -/
theorem C10_unknown_custom_ops_witness :
    extract_from_gp ctxTriv 9 gpC10 [] false false = .ok (netC10, []) ∧
    (∃ nn, dlookup 0 netC10.nnNodes = some nn ∧ nn.attributes = [] ∧ nn.parameters = [] ∧
      (∀ kv ∈ nn.operands, kv.1 ∈ nodeC10.input ∧ dlookup kv.1 (ioInfoOf gpC10) = some kv.2) ∧
      (∀ kv ∈ nn.results, kv.1 ∈ nodeC10.output ∧ dlookup kv.1 (ioInfoOf gpC10) = some kv.2)) :=
  ⟨rfl, C10_unknown_custom_ops.1 ctxTriv 9 gpC10 [] false false netC10 [] rfl 0 nodeC10 rfl
    (by decide) rfl⟩

theorem gpParamsLoop_nil (slots : List FormalParameter) (pm : List (String × PmInfo))
    (idx vi : Nat) (acc : List (String × PmInfo)) :
    gpParamsLoop slots pm [] idx vi acc = .ok acc := rfl

theorem gpParamsLoop_cons (slots : List FormalParameter) (pm : List (String × PmInfo))
    (inp : String) (rest : List String) (idx vi : Nat) (acc : List (String × PmInfo)) :
    gpParamsLoop slots pm (inp :: rest) idx vi acc =
      (match dlookup inp pm with
       | none => gpParamsLoop slots pm rest (idx + 1) vi acc
       | some info =>
         match variadicAdjust slots (idx : Int) vi with
         | .error e => .error e
         | .ok (idx2, vi2) =>
           match slotName slots idx2 vi2 with
           | .error e => .error e
           | .ok pname => gpParamsLoop slots pm rest (idx + 1) vi2 (dinsert pname info acc)) := rfl

theorem gpSlotLoop_nil (slots : List FormalParameter) (io : List (String × String))
    (nid : Nat) (idx vi : Nat) (x2 : List (String × (Nat × String × Int)))
    (smap : List (String × String)) :
    gpSlotLoop slots io nid [] idx vi x2 smap = .ok (x2, smap) := rfl

theorem gpSlotLoop_cons (slots : List FormalParameter) (io : List (String × String))
    (nid : Nat) (inp : String) (rest : List String) (idx vi : Nat)
    (x2 : List (String × (Nat × String × Int))) (smap : List (String × String)) :
    gpSlotLoop slots io nid (inp :: rest) idx vi x2 smap =
      (match dlookup inp io with
       | none => gpSlotLoop slots io nid rest (idx + 1) vi x2 smap
       | some desc =>
         match variadicAdjust slots (min (idx : Int) ((slots.length : Int) - 1)) vi with
         | .error e => .error e
         | .ok (idx2, vi2) =>
           match slotName slots idx2 vi2 with
           | .error e => .error e
           | .ok sname =>
               gpSlotLoop slots io nid rest (idx + 1) vi2
                 (dinsert inp (nid, sname, idx2) x2) (dinsert sname desc smap)) := rfl

theorem fpSlotLoop_nil (slots : List FormalParameter) (nid : Nat) (idx vi : Nat)
    (x2 : List (String × (Nat × String × Int))) (smap : List (String × String)) :
    fpSlotLoop slots nid [] idx vi x2 smap = .ok (vi, x2, smap) := rfl

theorem fpSlotLoop_cons (slots : List FormalParameter) (nid : Nat) (inp : String)
    (rest : List String) (idx vi : Nat) (x2 : List (String × (Nat × String × Int)))
    (smap : List (String × String)) :
    fpSlotLoop slots nid (inp :: rest) idx vi x2 smap =
      (match variadicAdjust slots (idx : Int) vi with
       | .error e => .error e
       | .ok (idx2, vi2) =>
         match slotName slots idx2 vi2 with
         | .error e => .error e
         | .ok sname =>
             fpSlotLoop slots nid rest (idx + 1) vi2
               (dinsert inp (nid, sname, idx2) x2) (dinsert sname inp smap)) := rfl

/-- Every entry of the parameters map built by the graph-level
parameters loop has a value read from the initializer table at some
input of the node. -/
theorem gpParamsLoop_provenance (slots : List FormalParameter) (pm : List (String × PmInfo)) :
    ∀ (inputs : List String) (idx vi : Nat) (acc ps : List (String × PmInfo)),
    gpParamsLoop slots pm inputs idx vi acc = .ok ps →
    ∀ kv ∈ ps, kv ∈ acc ∨ ∃ inp ∈ inputs, dlookup inp pm = some kv.2 := by
  intro inputs
  induction inputs with
  | nil =>
    intro idx vi acc ps h kv hkv
    rw [gpParamsLoop_nil] at h
    injection h with h
    subst h
    exact Or.inl hkv
  | cons inp rest ih =>
    intro idx vi acc ps h kv hkv
    rw [gpParamsLoop_cons] at h
    split at h
    · rcases ih _ _ _ _ h kv hkv with hh | ⟨i0, hi0, hl⟩
      · exact Or.inl hh
      · exact Or.inr ⟨i0, List.mem_cons_of_mem _ hi0, hl⟩
    · rename_i info hpm
      split at h
      · exact Except.noConfusion h
      · rename_i idx2 vi2 hadj
        split at h
        · exact Except.noConfusion h
        · rename_i pname hsn
          rcases ih _ _ _ _ h kv hkv with hh | ⟨i0, hi0, hl⟩
          · rcases mem_dinsert hh with ⟨hk, hv⟩ | hh
            · exact Or.inr ⟨inp, List.mem_cons_self _ _, by rw [hpm, hv]⟩
            · exact Or.inl hh
          · exact Or.inr ⟨i0, List.mem_cons_of_mem _ hi0, hl⟩

/-- Every entry of the operands map built by the graph-level operands
loop has a value read from the annotation table at some input of the
node. -/
theorem gpSlotLoop_provenance (slots : List FormalParameter) (io : List (String × String))
    (nid : Nat) :
    ∀ (inputs : List String) (idx vi : Nat) (x2 : List (String × (Nat × String × Int)))
      (smap : List (String × String)) (x2r : List (String × (Nat × String × Int)))
      (os : List (String × String)),
    gpSlotLoop slots io nid inputs idx vi x2 smap = .ok (x2r, os) →
    ∀ kv ∈ os, kv ∈ smap ∨ ∃ inp ∈ inputs, dlookup inp io = some kv.2 := by
  intro inputs
  induction inputs with
  | nil =>
    intro idx vi x2 smap x2r os h kv hkv
    rw [gpSlotLoop_nil] at h
    injection h with h
    rw [Prod.mk.injEq] at h
    obtain ⟨h1, h2⟩ := h
    subst h2
    exact Or.inl hkv
  | cons inp rest ih =>
    intro idx vi x2 smap x2r os h kv hkv
    rw [gpSlotLoop_cons] at h
    split at h
    · rcases ih _ _ _ _ _ _ h kv hkv with hh | ⟨i0, hi0, hl⟩
      · exact Or.inl hh
      · exact Or.inr ⟨i0, List.mem_cons_of_mem _ hi0, hl⟩
    · rename_i desc hio
      split at h
      · exact Except.noConfusion h
      · rename_i idx2 vi2 hadj
        split at h
        · exact Except.noConfusion h
        · rename_i sname hsn
          rcases ih _ _ _ _ _ _ h kv hkv with hh | ⟨i0, hi0, hl⟩
          · rcases mem_dinsert hh with ⟨hk, hv⟩ | hh
            · exact Or.inr ⟨inp, List.mem_cons_self _ _, by rw [hio, hv]⟩
            · exact Or.inl hh
          · exact Or.inr ⟨i0, List.mem_cons_of_mem _ hi0, hl⟩

/-- A single input present in both tables contributes an entry to both
maps. -/
theorem gpLoops_overlap (slots : List FormalParameter) (pm : List (String × PmInfo))
    (io : List (String × String)) (inp : String) (pv : PmInfo) (iv : String) (nid : Nat)
    (x2 : List (String × (Nat × String × Int))) (ps : List (String × PmInfo))
    (x2r : List (String × (Nat × String × Int))) (os : List (String × String))
    (hpm : dlookup inp pm = some pv) (hio : dlookup inp io = some iv)
    (hps : gpParamsLoop slots pm [inp] 0 0 [] = .ok ps)
    (hos : gpSlotLoop slots io nid [inp] 0 0 x2 [] = .ok (x2r, os)) :
    (∃ pname, ps = [(pname, pv)]) ∧ ∃ sname, os = [(sname, iv)] := by
  constructor
  · rw [gpParamsLoop_cons, hpm] at hps
    replace hps : (match variadicAdjust slots ((0 : Nat) : Int) 0 with
       | .error e => (Except.error e : Except ExtractError (List (String × PmInfo)))
       | .ok (idx2, vi2) =>
         match slotName slots idx2 vi2 with
         | .error e => .error e
         | .ok pname => gpParamsLoop slots pm [] (0 + 1) vi2 (dinsert pname pv [])) = .ok ps := hps
    split at hps
    · exact Except.noConfusion hps
    · rename_i idx2 vi2 hadj
      split at hps
      · exact Except.noConfusion hps
      · rename_i pname hsn
        rw [gpParamsLoop_nil] at hps
        injection hps with hps
        subst hps
        exact ⟨pname, rfl⟩
  · rw [gpSlotLoop_cons, hio] at hos
    replace hos : (match variadicAdjust slots (min ((0 : Nat) : Int) ((slots.length : Int) - 1)) 0 with
       | .error e => (Except.error e :
           Except ExtractError (List (String × (Nat × String × Int)) × List (String × String)))
       | .ok (idx2, vi2) =>
         match slotName slots idx2 vi2 with
         | .error e => .error e
         | .ok sname =>
             gpSlotLoop slots io nid [] (0 + 1) vi2
               (dinsert inp (nid, sname, idx2) x2) (dinsert sname iv [])) = .ok (x2r, os) := hos
    split at hos
    · exact Except.noConfusion hos
    · rename_i idx2 vi2 hadj
      split at hos
      · exact Except.noConfusion hos
      · rename_i sname hsn
        rw [gpSlotLoop_nil] at hos
        injection hos with hos
        rw [Prod.mk.injEq] at hos
        obtain ⟨h1, h2⟩ := hos
        subst h2
        exact ⟨sname, rfl⟩

/-- Counterexample to C7: the claim concludes that the parameters map
and the operands map never both contain an entry derived from the same
input value name; in this concrete graph the single input w is both an
initializer and a graph input carrying an annotation, and the node
record ends up with a parameters entry and an operands entry both
derived from w. -/
theorem C7_counterexample :
    extract_from_gp ctxC7 9 gpC7 [] false false = .ok (netC7, []) ∧
    dlookup "w" (pmInfoOf gpC7) = some ⟨["dims"], "FLOAT"⟩ ∧
    dlookup "w" (ioInfoOf gpC7) = some "TW" ∧
    ∃ nn, dlookup 0 netC7.nnNodes = some nn ∧
      nn.parameters = [("W", ⟨["dims"], "FLOAT"⟩)] ∧ nn.operands = [("W", "TW")] :=
  ⟨rfl, rfl, rfl, ⟨⟨"Op", "onnx", [], [("W", ⟨["dims"], "FLOAT"⟩)], [("W", "TW")], [("o", "TY")]⟩,
    rfl, rfl, rfl⟩⟩

/-- C7 amended: initializer-bound inputs are recorded under parameters
and annotation-bearing inputs under operands (every parameters entry is
valued from the initializer table at one of the node inputs and every
operands entry from the annotation table), but the two maps are not
disjointly sourced: an input present in both tables produces an entry in
both maps. -/
theorem C7_parameters_operands :
    (∀ (slots : List FormalParameter) (pm : List (String × PmInfo)) (inputs : List String)
       (idx vi : Nat) (acc ps : List (String × PmInfo)),
       gpParamsLoop slots pm inputs idx vi acc = .ok ps →
       ∀ kv ∈ ps, kv ∈ acc ∨ ∃ inp ∈ inputs, dlookup inp pm = some kv.2) ∧
    (∀ (slots : List FormalParameter) (io : List (String × String)) (nid : Nat)
       (inputs : List String) (idx vi : Nat) (x2 : List (String × (Nat × String × Int)))
       (smap : List (String × String)) (x2r : List (String × (Nat × String × Int)))
       (os : List (String × String)),
       gpSlotLoop slots io nid inputs idx vi x2 smap = .ok (x2r, os) →
       ∀ kv ∈ os, kv ∈ smap ∨ ∃ inp ∈ inputs, dlookup inp io = some kv.2) ∧
    (∀ (slots : List FormalParameter) (pm : List (String × PmInfo)) (io : List (String × String))
       (inp : String) (pv : PmInfo) (iv : String) (nid : Nat)
       (x2 : List (String × (Nat × String × Int))) (ps : List (String × PmInfo))
       (x2r : List (String × (Nat × String × Int))) (os : List (String × String)),
       dlookup inp pm = some pv → dlookup inp io = some iv →
       gpParamsLoop slots pm [inp] 0 0 [] = .ok ps →
       gpSlotLoop slots io nid [inp] 0 0 x2 [] = .ok (x2r, os) →
       (∃ pname, ps = [(pname, pv)]) ∧ ∃ sname, os = [(sname, iv)]) :=
  ⟨fun slots pm inputs idx vi acc ps h => gpParamsLoop_provenance slots pm inputs idx vi acc ps h,
   fun slots io nid inputs idx vi x2 smap x2r os h =>
     gpSlotLoop_provenance slots io nid inputs idx vi x2 smap x2r os h,
   fun slots pm io inp pv iv nid x2 ps x2r os hpm hio hps hos =>
     gpLoops_overlap slots pm io inp pv iv nid x2 ps x2r os hpm hio hps hos⟩

/-- Witness for C7 at the concrete graph of the counterexample. -/
theorem C7_parameters_operands_witness :
    dlookup "w" (pmInfoOf gpC7) = some ⟨["dims"], "FLOAT"⟩ ∧
    dlookup "w" (ioInfoOf gpC7) = some "TW" ∧
    gpParamsLoop [⟨"W", false⟩] (pmInfoOf gpC7) ["w"] 0 0 [] = .ok [("W", ⟨["dims"], "FLOAT"⟩)] ∧
    gpSlotLoop [⟨"W", false⟩] (ioInfoOf gpC7) 0 ["w"] 0 0 [] [] = .ok ([("w", (0, "W", 0))], [("W", "TW")]) ∧
    ((∃ pname, [("W", (⟨["dims"], "FLOAT"⟩ : PmInfo))] = [(pname, (⟨["dims"], "FLOAT"⟩ : PmInfo))]) ∧
      ∃ sname, [("W", "TW")] = [(sname, "TW")]) :=
  ⟨rfl, rfl, rfl, rfl,
    C7_parameters_operands.2.2 [⟨"W", false⟩] (pmInfoOf gpC7) (ioInfoOf gpC7) "w" _ _ 0 [] _ _ _
      rfl rfl rfl rfl⟩

/-! Claim C8: out-of-range positional slots. -/

theorem variadicAdjust_lt (slots : List FormalParameter) (idx : Int) (vi : Nat)
    (h : idx < (slots.length : Int)) : variadicAdjust slots idx vi = .ok (idx, vi) := by
  unfold variadicAdjust
  rw [if_neg (not_le.mpr h)]

theorem pyGet_some {α : Type} (xs : List α) (i : Int) (h0 : 0 ≤ i)
    (h1 : i < (xs.length : Int)) : ∃ p, pyGet xs i = some p := by
  unfold pyGet
  rw [if_neg (not_lt.mpr h0)]
  have hlt : i.toNat < xs.length := by omega
  exact ⟨_, List.get?_eq_get hlt⟩

theorem pyGet_none {α : Type} (xs : List α) (i : Int) (h0 : 0 ≤ i)
    (h1 : (xs.length : Int) ≤ i) : pyGet xs i = none := by
  unfold pyGet
  rw [if_neg (not_lt.mpr h0)]
  exact List.get?_eq_none.mpr (by omega)

/-- The graph-level operands and results loop never raises IndexError
when the schema declares at least one slot: the min clamp keeps every
position in range regardless of how many positional values the node
provides. -/
theorem gpSlotLoop_total (slots : List FormalParameter) (hne : slots ≠ [])
    (io : List (String × String)) (nid : Nat) :
    ∀ (inputs : List String) (idx vi : Nat) (x2 : List (String × (Nat × String × Int)))
      (smap : List (String × String)),
    ∃ r, gpSlotLoop slots io nid inputs idx vi x2 smap = .ok r := by
  intro inputs
  induction inputs with
  | nil => intro idx vi x2 smap; exact ⟨(x2, smap), rfl⟩
  | cons inp rest ih =>
    intro idx vi x2 smap
    have hlen : 0 < slots.length := List.length_pos.mpr hne
    rw [gpSlotLoop_cons]
    cases hio : dlookup inp io with
    | none => exact ih (idx + 1) vi x2 smap
    | some desc =>
      have hub : min ((idx : Nat) : Int) ((slots.length : Int) - 1) < (slots.length : Int) :=
        lt_of_le_of_lt (min_le_right _ _) (by omega)
      have hlb : (0 : Int) ≤ min ((idx : Nat) : Int) ((slots.length : Int) - 1) :=
        le_min (Int.natCast_nonneg idx) (by omega)
      rw [variadicAdjust_lt _ _ _ hub]
      obtain ⟨p, hp⟩ := pyGet_some slots _ hlb hub
      have hsn : slotName slots (min ((idx : Nat) : Int) ((slots.length : Int) - 1)) vi =
          .ok (p.name ++ viSuffix vi) := by
        unfold slotName
        rw [hp]
      show ∃ r, (match slotName slots (min ((idx : Nat) : Int) ((slots.length : Int) - 1)) vi with
        | .error e => (Except.error e :
            Except ExtractError (List (String × (Nat × String × Int)) × List (String × String)))
        | .ok sname =>
            gpSlotLoop slots io nid rest (idx + 1) vi
              (dinsert inp (nid, sname, min ((idx : Nat) : Int) ((slots.length : Int) - 1)) x2)
              (dinsert sname desc smap)) = .ok r
      rw [hsn]
      exact ih (idx + 1) vi _ _

/-- The function-level slot loop raises IndexError as soon as the
positional values outnumber the declared slots and the final slot is
not variadic: there is no clamp on this path. -/
theorem fpSlotLoop_overflow (slots : List FormalParameter) (last : FormalParameter)
    (hlast : pyGet slots (-1) = some last) (hvar : last.variadic = false) :
    ∀ (inputs : List String) (idx vi nid : Nat)
      (x2 : List (String × (Nat × String × Int))) (smap : List (String × String)),
    idx ≤ slots.length → slots.length < idx + inputs.length →
    fpSlotLoop slots nid inputs idx vi x2 smap = .error .indexError := by
  intro inputs
  induction inputs with
  | nil =>
    intro idx vi nid x2 smap h1 h2
    exact absurd h2 (by simp; omega)
  | cons inp rest ih =>
    intro idx vi nid x2 smap h1 h2
    rw [fpSlotLoop_cons]
    by_cases hidx : slots.length ≤ idx
    · have hadj : variadicAdjust slots ((idx : Nat) : Int) vi = .ok (((idx : Nat) : Int), vi) := by
        unfold variadicAdjust
        rw [if_pos (by exact_mod_cast hidx), hlast]
        simp [hvar]
      have hsn : slotName slots ((idx : Nat) : Int) vi = .error .indexError := by
        unfold slotName
        rw [pyGet_none slots _ (Int.natCast_nonneg idx) (by exact_mod_cast hidx)]
      rw [hadj]
      show (match slotName slots ((idx : Nat) : Int) vi with
        | .error e => (Except.error e :
            Except ExtractError (Nat × List (String × (Nat × String × Int)) × List (String × String)))
        | .ok sname =>
            fpSlotLoop slots nid rest (idx + 1) vi
              (dinsert inp (nid, sname, ((idx : Nat) : Int)) x2)
              (dinsert sname inp smap)) = .error .indexError
      rw [hsn]
    · push_neg at hidx
      have hadj := variadicAdjust_lt slots ((idx : Nat) : Int) vi (by exact_mod_cast hidx)
      obtain ⟨p, hp⟩ := pyGet_some slots ((idx : Nat) : Int) (Int.natCast_nonneg idx)
        (by exact_mod_cast hidx)
      have hsn : slotName slots ((idx : Nat) : Int) vi = .ok (p.name ++ viSuffix vi) := by
        unfold slotName
        rw [hp]
      rw [hadj]
      show (match slotName slots ((idx : Nat) : Int) vi with
        | .error e => (Except.error e :
            Except ExtractError (Nat × List (String × (Nat × String × Int)) × List (String × String)))
        | .ok sname =>
            fpSlotLoop slots nid rest (idx + 1) vi
              (dinsert inp (nid, sname, ((idx : Nat) : Int)) x2)
              (dinsert sname inp smap)) = .error .indexError
      rw [hsn]
      show fpSlotLoop slots nid rest (idx + 1) vi
          (dinsert inp (nid, p.name ++ viSuffix vi, ((idx : Nat) : Int)) x2)
          (dinsert (p.name ++ viSuffix vi) inp smap) = .error .indexError
      exact ih (idx + 1) vi nid _ _ (by omega) (by simp at h2 ⊢; omega)

/-- The graph-level parameters loop has no clamp either: an
initializer-bound input past a non-variadic schema raises IndexError. -/
theorem gpParamsLoop_overflow (slots : List FormalParameter) (last : FormalParameter)
    (hlast : pyGet slots (-1) = some last) (hvar : last.variadic = false)
    (pm : List (String × PmInfo)) :
    ∀ (inputs : List String) (idx vi : Nat) (acc : List (String × PmInfo)),
    (∀ inp ∈ inputs, (dlookup inp pm).isSome) →
    idx ≤ slots.length → slots.length < idx + inputs.length →
    gpParamsLoop slots pm inputs idx vi acc = .error .indexError := by
  intro inputs
  induction inputs with
  | nil =>
    intro idx vi acc hmem h1 h2
    exact absurd h2 (by simp; omega)
  | cons inp rest ih =>
    intro idx vi acc hmem h1 h2
    obtain ⟨info, hinfo⟩ := Option.isSome_iff_exists.mp (hmem inp (List.mem_cons_self _ _))
    rw [gpParamsLoop_cons, hinfo]
    by_cases hidx : slots.length ≤ idx
    · have hadj : variadicAdjust slots ((idx : Nat) : Int) vi = .ok (((idx : Nat) : Int), vi) := by
        unfold variadicAdjust
        rw [if_pos (by exact_mod_cast hidx), hlast]
        simp [hvar]
      have hsn : slotName slots ((idx : Nat) : Int) vi = .error .indexError := by
        unfold slotName
        rw [pyGet_none slots _ (Int.natCast_nonneg idx) (by exact_mod_cast hidx)]
      rw [hadj]
      show (match slotName slots ((idx : Nat) : Int) vi with
        | .error e => (Except.error e : Except ExtractError (List (String × PmInfo)))
        | .ok pname => gpParamsLoop slots pm rest (idx + 1) vi (dinsert pname info acc)) =
          .error .indexError
      rw [hsn]
    · push_neg at hidx
      have hadj := variadicAdjust_lt slots ((idx : Nat) : Int) vi (by exact_mod_cast hidx)
      obtain ⟨p, hp⟩ := pyGet_some slots ((idx : Nat) : Int) (Int.natCast_nonneg idx)
        (by exact_mod_cast hidx)
      have hsn : slotName slots ((idx : Nat) : Int) vi = .ok (p.name ++ viSuffix vi) := by
        unfold slotName
        rw [hp]
      rw [hadj]
      show (match slotName slots ((idx : Nat) : Int) vi with
        | .error e => (Except.error e : Except ExtractError (List (String × PmInfo)))
        | .ok pname => gpParamsLoop slots pm rest (idx + 1) vi (dinsert pname info acc)) =
          .error .indexError
      rw [hsn]
      show gpParamsLoop slots pm rest (idx + 1) vi
          (dinsert (p.name ++ viSuffix vi) info acc) = .error .indexError
      exact ih (idx + 1) vi _ (fun i0 hi0 => hmem i0 (List.mem_cons_of_mem _ hi0)) (by omega)
        (by simp at h2 ⊢; omega)

/-- Counterexample to C8: the claim states that a positional index past
the declared slots is always clamped, even for a non-variadic final
slot, and extraction proceeds without error; but the function-level
input loop has no clamp, so a built-in node with two positional inputs
against a one-slot non-variadic schema makes extraction fail with
IndexError. -/
theorem C8_counterexample :
    extract_from_fp ctxC8 9 fpC8 [] false false = .error .indexError := rfl

/-- C8 amended: only the graph-level operands and results loops clamp
the positional index (min against the final slot position), so those
never index out of bounds however many positional values the node
supplies; the graph-level parameters loop and the function-level slot
loops have no clamp, and when positional values outnumber the declared
slots of a schema whose final slot is not variadic they fail with
IndexError. -/
theorem C8_slot_clamping :
    (∀ (slots : List FormalParameter), slots ≠ [] →
      ∀ (io : List (String × String)) (nid : Nat) (inputs : List String) (idx vi : Nat)
        (x2 : List (String × (Nat × String × Int))) (smap : List (String × String)),
      ∃ r, gpSlotLoop slots io nid inputs idx vi x2 smap = .ok r) ∧
    (∀ (slots : List FormalParameter) (last : FormalParameter),
      pyGet slots (-1) = some last → last.variadic = false →
      ∀ (inputs : List String) (vi nid : Nat) (x2 : List (String × (Nat × String × Int)))
        (smap : List (String × String)),
      slots.length < inputs.length →
      fpSlotLoop slots nid inputs 0 vi x2 smap = .error .indexError) ∧
    (∀ (slots : List FormalParameter) (last : FormalParameter),
      pyGet slots (-1) = some last → last.variadic = false →
      ∀ (pm : List (String × PmInfo)) (inputs : List String) (vi : Nat)
        (acc : List (String × PmInfo)),
      (∀ inp ∈ inputs, (dlookup inp pm).isSome) →
      slots.length < inputs.length →
      gpParamsLoop slots pm inputs 0 vi acc = .error .indexError) := by
  refine ⟨?_, ?_, ?_⟩
  · intro slots hne io nid inputs idx vi x2 smap
    exact gpSlotLoop_total slots hne io nid inputs idx vi x2 smap
  · intro slots last hlast hvar inputs vi nid x2 smap hlen
    exact fpSlotLoop_overflow slots last hlast hvar inputs 0 vi nid x2 smap (Nat.zero_le _)
      (by omega)
  · intro slots last hlast hvar pm inputs vi acc hmem hlen
    exact gpParamsLoop_overflow slots last hlast hvar pm inputs 0 vi acc hmem (Nat.zero_le _)
      (by omega)

/-- Witness for C8: the clamped graph-level loop succeeds on two inputs
against a one-slot schema while the function-level loop raises
IndexError on the same data. -/
theorem C8_slot_clamping_witness :
    (∃ r, gpSlotLoop [⟨"a", false⟩] [("x0", "T0"), ("x1", "T1")] 0 ["x0", "x1"] 0 0 [] [] = .ok r) ∧
    fpSlotLoop [⟨"a", false⟩] 0 ["x0", "x1"] 0 0 [] [] = .error .indexError :=
  ⟨C8_slot_clamping.1 [⟨"a", false⟩] (by decide) [("x0", "T0"), ("x1", "T1")] 0 ["x0", "x1"] 0 0 [] [],
   C8_slot_clamping.2.1 [⟨"a", false⟩] ⟨"a", false⟩ rfl rfl ["x0", "x1"] 0 0 [] [] (by decide)⟩

/-- C1 evaluated at the failing input: node 0 produces value x which is
consumed by the two distinct nodes 1 and 2, yet the assembled graph
holds exactly ONE outgoing edge of the producer, to the last consumer
(node 2) only, because the consumer index i2x is keyed by value name
and the later consumer overwrites the earlier one; the claim demands
two edges, one per consumer. -/
theorem C1_fanout_eval :
    extract_network ctxTriv 9 modelC1 = .ok netC1 ∧
    netC1.graph.edges = [((0, 2), ⟨"x", "x", 0, 0⟩)] ∧
    (netC1.graph.edges.filter (fun e => e.1.1 == 0)).length = 1 :=
  ⟨rfl, rfl, rfl⟩

/-- C2 evaluated at the failing input: a built-in operator with the
two-slot schema (a, b variadic) and four positional inputs.  At graph
level the min clamp runs before the variadic test, so the test is
unreachable and the extra inputs all map to the bare name b (the map
keeps only a and the last b); the claim demands a, b, b_1, b_2.  At
function level the inputs do map to a, b, b_1, b_2, but the variadic
counter is shared with the output loop instead of restarting, so the
single in-range output is named o_2 instead of o. -/
theorem C2_variadic_eval :
    extract_from_gp ctxC2 9 gpC2 [] false false = .ok (netC2gp, []) ∧
    extract_from_fp ctxC2 9 fpC2 [] false false = .ok (netC2fp, []) ∧
    (∃ nn, dlookup 0 netC2gp.nnNodes = some nn ∧ nn.operands = [("a", "T0"), ("b", "T3")]) ∧
    (∃ nn, dlookup 0 netC2fp.nnNodes = some nn ∧
      nn.operands = [("a", "x0"), ("b", "x1"), ("b_1", "x2"), ("b_2", "x3")] ∧
      nn.results = [("o_2", "y")]) :=
  ⟨rfl, rfl, ⟨⟨"Op", "onnx", [], [], [("a", "T0"), ("b", "T3")], [("o", "TY")]⟩, rfl, rfl⟩,
   ⟨⟨"Op", "onnx", [], [],
     [("a", "x0"), ("b", "x1"), ("b_1", "x2"), ("b_2", "x3")], [("o_2", "y")]⟩, rfl, rfl, rfl⟩⟩

end YB
